import Mathlib

/-!
Shallow embedding of the RestaurantDashboard core: the inventory-sufficiency
checker (`checkSufficientIngredients`), the order placement workflow
(`POST /api/placeOrder` composed with the client `CartContext.placeOrder`),
the kitchen lane state machine (`PUT /api/kitchenNext`), and the kitchen
read view (`GET /api/kitchenOrders?source=kitchen`), all from
`expression-panda/amazon.js` and `ExpressionPanda/src/components/CartContext.tsx`.

Database tables are modelled as lists of rows.  SQL joins are modelled as
nested iteration in the syntactic order of the FROM/JOIN clauses, which fixes
one deterministic row order (the real engine's order is implementation
defined; nothing proved below depends on a particular order beyond the
determinism of the model itself).  Machine numbers: quantities and stock
levels are natural numbers (the schema and UI keep them non-negative);
money is modelled exactly over `ℚ`.
-/

/-- A row of the `inventory` table: `inventory(inventory_id, item_name, stock_level, ...)`. -/
structure InventoryRow where
  inventory_id : Nat
  item_name : String
  stock_level : Nat
deriving DecidableEq, Repr

/-- A row of the `menu_ingredients` table: one recipe entry of a menu item. -/
structure RecipeRow where
  menu_item_id : Nat
  inventory_id : Nat
  quantity_needed : Nat
deriving DecidableEq, Repr

/-- One element of the request's `itemAmount` array (a cart line from
`CartContext`): `{id, name, price, quantity}`. -/
structure CartLine where
  id : Nat
  name : String
  price : ℚ
  quantity : Nat
deriving DecidableEq, Repr

/-- One row of the SQL result inside `checkSufficientIngredients`:
`menu_ingredients JOIN inventory ON inventory_id JOIN oi ON menu_item_id`,
with `total_quantity_needed = mi.quantity_needed * oi.quantity`. -/
structure SuffRow where
  menu_item_id : Nat
  inventory_id : Nat
  total_quantity_needed : Nat
  item_name : String
  stock_level : Nat
  menu_name : String
  quantity : Nat
deriving DecidableEq, Repr

/-- Row constructor for the join of one recipe row, one inventory row and
one cart line. -/
def mkSuffRow (m : RecipeRow) (i : InventoryRow) (c : CartLine) : SuffRow :=
  { menu_item_id := m.menu_item_id
    inventory_id := m.inventory_id
    total_quantity_needed := m.quantity_needed * c.quantity
    item_name := i.item_name
    stock_level := i.stock_level
    menu_name := c.name
    quantity := c.quantity }

/-- The join rows one recipe entry and one inventory row contribute: one row
per cart line ordering that recipe's menu item. -/
def cartRowsFor (m : RecipeRow) (i : InventoryRow) (cart : List CartLine) :
    List SuffRow :=
  cart.filterMap fun c =>
    if c.id = m.menu_item_id then some (mkSuffRow m i c) else none

/-- The join rows one recipe entry contributes across the inventory table. -/
def rowsOfRecipe (inv : List InventoryRow) (m : RecipeRow)
    (cart : List CartLine) : List SuffRow :=
  inv.flatMap fun i =>
    if m.inventory_id = i.inventory_id then cartRowsFor m i cart else []

/-- The result rows of the sufficiency query (`res.rows`), iterating the
joined tables in clause order: `menu_ingredients`, then `inventory`
(on `inventory_id`), then the cart array `oi` (on `menu_item_id`). -/
def suffRows (inv : List InventoryRow) (mi : List RecipeRow)
    (cart : List CartLine) : List SuffRow :=
  mi.flatMap fun m => rowsOfRecipe inv m cart

/-- The rows of the result whose `item_name` is `n`. -/
def rowsFor (rows : List SuffRow) (n : String) : List SuffRow :=
  rows.filter fun r => r.item_name = n

/-- `allIngredientsUsed.get(n).total`: aggregated demand keyed by the
inventory item NAME, summed over every result row carrying that name. -/
def totalByName (rows : List SuffRow) (n : String) : Nat :=
  ((rowsFor rows n).map fun r => r.total_quantity_needed).sum

/-- `allIngredientsUsed.get(n).itemUsed`: the "menuName xQty" strings
accumulated for the name `n`, in row order. -/
def usedByName (rows : List SuffRow) (n : String) : List String :=
  (rowsFor rows n).map fun r => r.menu_name ++ " x" ++ toString r.quantity

/-- The `second` object returned on the low branch of
`checkSufficientIngredients`. -/
structure Shortage where
  ingredientName : String
  currStock : Nat
  neededStock : Nat
  menuItemsUsing : List String
deriving DecidableEq, Repr

/-- One entry of a breakdown item's `ingredient` array. -/
structure BreakdownIngredient where
  ingredientName : String
  amount : Nat
deriving DecidableEq, Repr

/-- One value of `itemToIngredientMap`, sent to the kitchen on success. -/
structure BreakdownItem where
  name : String
  amount : Nat
  ingredient : List BreakdownIngredient
deriving DecidableEq, Repr

/-- The return value of `checkSufficientIngredients`: `{low, second}`. -/
inductive CheckResult where
  | low (second : Shortage)
  | ok (second : List BreakdownItem)
deriving DecidableEq, Repr

/-- The `low` flag of a `CheckResult`. -/
def CheckResult.isLow : CheckResult → Bool
  | .low _ => true
  | .ok _ => false

/-- The keys of the JS `Map` `itemToIngredientMap` in insertion order:
first occurrence of each cart line id. -/
def firstKeys : List CartLine → List Nat
  | [] => []
  | c :: cs => c.id :: (firstKeys cs).filter fun k => k ≠ c.id

/-- The value stored at key `k` after the initialisation loop: a JS
`Map.set` on an existing key overwrites, so the LAST cart line with id `k`
provides `name` and `amount`. -/
def lastLineFor (cart : List CartLine) (k : Nat) : Option CartLine :=
  (cart.filter fun c => c.id = k).getLast?

/-- `Array.from(itemToIngredientMap.values())`: one entry per distinct cart
line id in first-insertion order, whose `ingredient` array collects, in row
order, every result row of that menu item id mapped to
`{ingredientName, amount := total_quantity_needed}`. -/
def breakdown (rows : List SuffRow) (cart : List CartLine) : List BreakdownItem :=
  (firstKeys cart).filterMap fun k =>
    match lastLineFor cart k with
    | none => none
    | some c =>
      some { name := c.name
             amount := c.quantity
             ingredient := (rows.filter fun r => r.menu_item_id = k).map
               fun r => { ingredientName := r.item_name
                          amount := r.total_quantity_needed } }

/-- The check loop of `checkSufficientIngredients`: the first result row
whose `stock_level` is below the name-aggregated demand short-circuits. -/
def lowRow (rows : List SuffRow) : Option SuffRow :=
  rows.find? fun r => decide (r.stock_level < totalByName rows r.item_name)

/-- `checkSufficientIngredients(itemOrdered)` against the `inventory` and
`menu_ingredients` tables. -/
def checkSufficientIngredients (inv : List InventoryRow) (mi : List RecipeRow)
    (cart : List CartLine) : CheckResult :=
  let rows := suffRows inv mi cart
  match lowRow rows with
  | some r =>
    .low { ingredientName := r.item_name
           currStock := r.stock_level
           neededStock := totalByName rows r.item_name
           menuItemsUsing := usedByName rows r.item_name }
  | none => .ok (breakdown rows cart)

/-- The spec's aggregated demand of one inventory item (keyed by its id):
`quantityNeeded × quantityOrdered` summed over every cart line whose menu
item's recipe uses that inventory id. -/
def demandOfInventoryId (mi : List RecipeRow) (cart : List CartLine)
    (invId : Nat) : Nat :=
  ((mi.filter fun m => m.inventory_id = invId).map fun m =>
    (((cart.filter fun c => c.id = m.menu_item_id).map
      fun c => m.quantity_needed * c.quantity)).sum).sum

/-- A row of `orders`: `orders(order_id, employee_id, order_time, order_total,
order_status)`.  The timestamp plays no role in any claim and is omitted. -/
structure OrderRow where
  order_id : Nat
  employee_id : Int
  order_total : ℚ
  order_status : String
deriving DecidableEq, Repr

/-- A row of `order_menu` (the order-lines table). -/
structure OrderMenuRow where
  order_id : Nat
  menu_item_id : Nat
  quantity_ordered : Nat
deriving DecidableEq, Repr

/-- A row of `menu` (only the columns the modelled queries read). -/
structure MenuRow where
  menu_item_id : Nat
  menu_item_name : String
deriving DecidableEq, Repr

/-- The persistent store: each table as a list of rows, plus the sequence
that backs the `order_id` serial column. -/
structure Db where
  inventory : List InventoryRow
  menu : List MenuRow
  menu_ingredients : List RecipeRow
  orders : List OrderRow
  order_menu : List OrderMenuRow
  nextOrderId : Nat
deriving DecidableEq, Repr

/-- The JSON body of `POST /api/placeOrder` as built by `CartContext`. -/
structure OrderBody where
  itemAmount : List CartLine
  total : ℚ
  emID : Int
deriving DecidableEq, Repr

/-- The HTTP-visible outcome of `POST /api/placeOrder`. -/
inductive PlaceResult where
  | placed (orderId : Nat)
  | lowStock (second : Shortage)
deriving DecidableEq, Repr

/-- `SELECT * FROM orders WHERE order_status = 'building'` returned at least
one row. -/
def anyBuilding (orders : List OrderRow) : Bool :=
  orders.any fun o => o.order_status = "building"

/-- `POST /api/placeOrder`: run the sufficiency check; on success insert one
`orders` row (status `waiting` iff some order is currently `building`) and
one `order_menu` row per cart line, atomically; on a low check respond with
the shortage and write nothing. -/
def placeOrder (body : OrderBody) (db : Db) : PlaceResult × Db :=
  match checkSufficientIngredients db.inventory db.menu_ingredients body.itemAmount with
  | .low s => (.lowStock s, db)
  | .ok _ =>
    let oid := db.nextOrderId
    let newOrder : OrderRow :=
      { order_id := oid
        employee_id := body.emID
        order_total := body.total
        order_status := if anyBuilding db.orders then "waiting" else "building" }
    let newLines : List OrderMenuRow := body.itemAmount.map fun c =>
      { order_id := oid, menu_item_id := c.id, quantity_ordered := c.quantity }
    (.placed oid,
      { db with
        orders := db.orders ++ [newOrder]
        order_menu := db.order_menu ++ newLines
        nextOrderId := oid + 1 })

/-- The ids of the orders having a given status. -/
def statusIds (orders : List OrderRow) (st : String) : List Nat :=
  (orders.filter fun o => o.order_status = st).map fun o => o.order_id

/-- `ORDER BY order_id ASC LIMIT 1`: the minimum of a list of ids. -/
def minId? : List Nat → Option Nat
  | [] => none
  | x :: xs =>
    match minId? xs with
    | none => some x
    | some m => some (if x ≤ m then x else m)

/-- The row-wise effect of the UPDATE in `PUT /api/kitchenNext`: the row
selected by `building_order` goes to `complete`, the row selected by
`next_order` goes to `building` (the CASE arms in that order), every other
row keeps its status. -/
def advanceOrder (b w : Option Nat) (o : OrderRow) : OrderRow :=
  if b = some o.order_id then { o with order_status := "complete" }
  else if w = some o.order_id then { o with order_status := "building" }
  else o

/-- `PUT /api/kitchenNext`: one transaction that completes the least-id
`building` order and promotes the least-id `waiting` order. -/
def advanceLane (db : Db) : Db :=
  let b := minId? (statusIds db.orders "building")
  let w := minId? (statusIds db.orders "waiting")
  { db with orders := db.orders.map (advanceOrder b w) }

/-- `CartContext`: `subtotal = Σ price × quantity` over the selected items. -/
def subtotalOf (items : List CartLine) : ℚ :=
  (items.map fun c => c.price * (c.quantity : ℚ)).sum

/-- `CartContext`: `tax = subtotal * 0.0825`. -/
def taxOf (items : List CartLine) : ℚ :=
  subtotalOf items * (825 / 10000)

/-- `CartContext`: `total = subtotal + tax`; this is the `total` field the
client posts to `/api/placeOrder`. -/
def clientTotal (items : List CartLine) : ℚ :=
  subtotalOf items + taxOf items

/-- The outcome of the client-side `placeOrder` in `CartContext`. -/
inductive ClientResult where
  | emptyError (msg : String)
  | serverResult (r : PlaceResult)
deriving DecidableEq, Repr

/-- `CartContext.placeOrder(userId)`: throw on an empty cart BEFORE issuing
any request (the store is untouched); otherwise POST the cart with the
client-computed total. -/
def cartPlaceOrder (selectedItems : List CartLine) (userId : Int)
    (db : Db) : ClientResult × Db :=
  if selectedItems.length = 0 then
    (.emptyError "Your order is empty. Please add items first.", db)
  else
    let out := placeOrder
      { itemAmount := selectedItems, total := clientTotal selectedItems,
        emID := userId } db
    (.serverResult out.1, out.2)

/-- Null-extension of a LEFT JOIN branch: an empty match list contributes a
single null row, a non-empty one contributes each match. -/
def optRows {α : Type} : List α → List (Option α)
  | [] => [none]
  | l => l.map some

/-- One row of the `source=kitchen` query result.  Nullable columns (all of
them from the LEFT JOIN chain) are `Option`s.  `ingredient_amount` is
`mi.quantity_needed` exactly as selected — the query does NOT multiply it by
`om.quantity_ordered`. -/
structure KVRow where
  order_id : Nat
  order_status : String
  item_name : Option String
  item_quantity : Option Nat
  ingredient_name : Option String
  ingredient_amount : Option Nat
deriving DecidableEq, Repr

/-- Sort key for `ORDER BY o.order_status ASC, o.order_id ASC` restricted to
the filtered statuses: `'building' < 'waiting'` in text order. -/
def statusRank (s : String) : Nat := if s = "building" then 0 else 1

/-- Insertion of one order into a list sorted by (status rank, id). -/
def laneInsert (o : OrderRow) : List OrderRow → List OrderRow
  | [] => [o]
  | x :: xs =>
    if statusRank o.order_status < statusRank x.order_status ∨
       (statusRank o.order_status = statusRank x.order_status ∧
        o.order_id ≤ x.order_id) then
      o :: x :: xs
    else x :: laneInsert o xs

/-- The orders the kitchen query selects, sorted as its ORDER BY clause
sorts them: status (`building` before `waiting`) then id ascending. -/
def laneOrders (orders : List OrderRow) : List OrderRow :=
  (orders.filter fun o =>
    o.order_status = "building" ∨ o.order_status = "waiting").foldr laneInsert []

/-- The rows of one `order_menu` line of a selected order: the tail of the
LEFT JOIN chain through `menu`, `menu_ingredients` and `inventory`.  The
selected `ingredient_amount` is `mi.quantity_needed` alone. -/
def kitchenLineRows (db : Db) (o : OrderRow) (om : OrderMenuRow) : List KVRow :=
  (optRows (db.menu.filter fun m =>
      m.menu_item_id = om.menu_item_id)).flatMap fun m? =>
    (optRows (db.menu_ingredients.filter fun mi =>
        mi.menu_item_id = om.menu_item_id)).flatMap fun mi? =>
      match mi? with
      | none =>
        [{ order_id := o.order_id, order_status := o.order_status,
           item_name := m?.map fun m => m.menu_item_name,
           item_quantity := some om.quantity_ordered,
           ingredient_name := none, ingredient_amount := none }]
      | some mi =>
        (optRows (db.inventory.filter fun i =>
            i.inventory_id = mi.inventory_id)).map fun i? =>
          { order_id := o.order_id, order_status := o.order_status,
            item_name := m?.map fun m => m.menu_item_name,
            item_quantity := some om.quantity_ordered,
            ingredient_name := i?.map fun i => i.item_name,
            ingredient_amount := some mi.quantity_needed }

/-- The result rows the kitchen query produces for one selected order:
`o LEFT JOIN order_menu om` followed by the per-line join tail. -/
def kitchenRowsForOrder (db : Db) (o : OrderRow) : List KVRow :=
  (optRows (db.order_menu.filter fun om => om.order_id = o.order_id)).flatMap
    fun om? =>
      match om? with
      | none =>
        [{ order_id := o.order_id, order_status := o.order_status,
           item_name := none, item_quantity := none,
           ingredient_name := none, ingredient_amount := none }]
      | some om => kitchenLineRows db o om

/-- The full sorted result set of the `source=kitchen` query. -/
def kitchenRows (db : Db) : List KVRow :=
  (laneOrders db.orders).flatMap (kitchenRowsForOrder db)

/-- A member of a kitchen-view item's `ingredient` array. -/
structure KVIngredient where
  ingredientName : Option String
  amount : Option Nat
deriving DecidableEq, Repr

/-- One member of a kitchen-view order's `item` array. -/
structure KVItem where
  name : Option String
  amount : Option Nat
  ingredient : List KVIngredient
deriving DecidableEq, Repr

/-- One entry of `ordersMap`. -/
structure KVOrder where
  id : Nat
  status : String
  item : List KVItem
deriving DecidableEq, Repr

/-- The per-row item step: find the first item with this `name` and push the
ingredient onto it, or push a fresh item (which then receives the
ingredient). -/
def addIngToItems (items : List KVItem) (nm : Option String) (q : Option Nat)
    (ing : KVIngredient) : List KVItem :=
  match items with
  | [] => [{ name := nm, amount := q, ingredient := [ing] }]
  | it :: rest =>
    if it.name = nm then
      { name := it.name, amount := it.amount,
        ingredient := it.ingredient ++ [ing] } :: rest
    else it :: addIngToItems rest nm q ing

/-- The grouping step of the kitchen handler: look up (or create) the
`ordersMap` entry for the row's order id and fold the row into its items. -/
def addRowToOrders (acc : List KVOrder) (r : KVRow) : List KVOrder :=
  match acc with
  | [] =>
    [{ id := r.order_id, status := r.order_status,
       item := addIngToItems [] r.item_name r.item_quantity
         { ingredientName := r.ingredient_name,
           amount := r.ingredient_amount } }]
  | e :: rest =>
    if e.id = r.order_id then
      { id := e.id, status := e.status,
        item := addIngToItems e.item r.item_name r.item_quantity
          { ingredientName := r.ingredient_name,
            amount := r.ingredient_amount } } :: rest
    else e :: addRowToOrders rest r

/-- `GET /api/kitchenOrders?source=kitchen`: group the query rows by order
id.  Entries are kept in first-appearance order (the handler materialises
`Object.values(ordersMap)`; only the order of entries, not their content,
could differ from the JS engine's numeric-key ordering). -/
def kitchenView (db : Db) : List KVOrder :=
  (kitchenRows db).foldl addRowToOrders []

/-- The number of `orders` rows whose status is `building`. -/
def buildingCount (orders : List OrderRow) : Nat :=
  (orders.filter fun o => o.order_status = "building").length

/-- Primary-key integrity of the order ledger: `order_id` is unique and the
sequence is ahead of every existing id. -/
def WfLedger (db : Db) : Prop :=
  (db.orders.map fun o => o.order_id).Nodup ∧
  ∀ o ∈ db.orders, o.order_id < db.nextOrderId

/-- One call against the order ledger: a placement or a lane advance. -/
inductive LaneOp where
  | place (body : OrderBody)
  | advance
deriving Repr

/-- The state after one call. -/
def applyOp (db : Db) : LaneOp → Db
  | .place body => (placeOrder body db).2
  | .advance => advanceLane db

/-- The state after a sequence of calls. -/
def applyOps (db : Db) (ops : List LaneOp) : Db :=
  ops.foldl applyOp db

/-- The id selected by the `building_order` CTE of `kitchenNext`. -/
def bVal (db : Db) : Option Nat :=
  minId? (statusIds db.orders "building")

/-- The id selected by the `next_order` CTE of `kitchenNext`. -/
def wVal (db : Db) : Option Nat :=
  minId? (statusIds db.orders "waiting")

/-- The ingredient object a kitchen row pushes. -/
def ingOf (r : KVRow) : KVIngredient :=
  { ingredientName := r.ingredient_name, amount := r.ingredient_amount }

/-- Folding kitchen rows into an `item` array (the inner part of the
grouping loop). -/
def foldItems (items : List KVItem) (rs : List KVRow) : List KVItem :=
  rs.foldl (fun its r =>
    addIngToItems its r.item_name r.item_quantity (ingOf r)) items

/-- The `item_name` every row of one order line carries: the name of the
first `menu` row matching the line's menu item id (`none` when the LEFT
JOIN finds nothing). -/
def lineName (db : Db) (om : OrderMenuRow) : Option String :=
  match db.menu.filter fun m => m.menu_item_id = om.menu_item_id with
  | [] => none
  | m :: _ => some m.menu_item_name

/-- The demand one recipe entry generates across the cart. -/
def lineDemand (m : RecipeRow) (cart : List CartLine) : Nat :=
  ((cart.filter fun c => c.id = m.menu_item_id).map
    fun c => m.quantity_needed * c.quantity).sum

/-- Concrete two-order ledger (one building, one waiting) used as a
witness input for the lane-machine claims. -/
def exDb3 : Db :=
  { inventory := [], menu := [], menu_ingredients := [],
    orders := [⟨1, 0, 0, "building"⟩, ⟨2, 0, 0, "waiting"⟩],
    order_menu := [], nextOrderId := 3 }

/-- Concrete store with one building order of two Bowls (recipe: 3 Rice per
Bowl), used against the kitchen read view. -/
def exDb5 : Db :=
  { inventory := [⟨1, "Rice", 5⟩]
    menu := [⟨10, "Bowl"⟩]
    menu_ingredients := [⟨10, 1, 3⟩]
    orders := [⟨1, 0, 0, "building"⟩]
    order_menu := [⟨1, 10, 2⟩]
    nextOrderId := 2 }

theorem filterMap_ite_eq_map_filter {α β : Type} (p : α → Prop) [DecidablePred p]
    (f : α → β) (l : List α) :
    (l.filterMap fun a => if p a then some (f a) else none) =
      (l.filter fun a => decide (p a)).map f := by
  induction l with
  | nil => rfl
  | cons x xs ih =>
    by_cases hx : p x
    · simp only [List.filterMap_cons, List.filter_cons, hx, if_pos, decide_eq_true_eq,
        decide_true_eq_true]
      simp [hx, ih]
    · simp [List.filterMap_cons, List.filter_cons, hx, ih]

theorem length_filter_le_of_imp {α : Type} (p q : α → Bool) (l : List α)
    (h : ∀ a ∈ l, p a = true → q a = true) :
    (l.filter p).length ≤ (l.filter q).length := by
  induction l with
  | nil => simp
  | cons x xs ih =>
    have ih2 := ih fun a ha => h a (List.mem_cons_of_mem _ ha)
    by_cases hp : p x = true
    · rw [List.filter_cons_of_pos hp, List.filter_cons_of_pos (h x (List.mem_cons_self x xs) hp)]
      simpa using ih2
    · rw [List.filter_cons_of_neg (by simpa using hp)]
      by_cases hq : q x = true
      · rw [List.filter_cons_of_pos hq]
        exact le_trans ih2 (by simp)
      · rw [List.filter_cons_of_neg (by simpa using hq)]
        exact ih2

theorem length_filter_key_le_one {α β : Type} [DecidableEq β] (key : α → β)
    (l : List α) (h : (l.map key).Nodup) (v : β) :
    (l.filter fun a => decide (key a = v)).length ≤ 1 := by
  induction l with
  | nil => simp
  | cons x xs ih =>
    rw [List.map_cons, List.nodup_cons] at h
    by_cases hx : key x = v
    · rw [List.filter_cons_of_pos (by simpa using hx)]
      have hnil : xs.filter (fun a => decide (key a = v)) = [] := by
        rw [List.filter_eq_nil_iff]
        intro a ha hdec
        exact h.1 (hx ▸ (decide_eq_true_eq.mp hdec) ▸ List.mem_map_of_mem key ha)
      simp [hnil]
    · rw [List.filter_cons_of_neg (by simpa using hx)]
      exact ih h.2

theorem eq_of_mem_of_length_le_one {α : Type} {l : List α} {a b : α}
    (ha : a ∈ l) (hb : b ∈ l) (h : l.length ≤ 1) : a = b := by
  match l with
  | [] => cases ha
  | [x] =>
    rw [List.mem_singleton] at ha hb
    rw [ha, hb]
  | x :: y :: ys => simp at h

theorem nodup_map_inj {α β : Type} {key : α → β} {l : List α}
    (h : (l.map key).Nodup) :
    ∀ a ∈ l, ∀ b ∈ l, key a = key b → a = b := by
  induction l with
  | nil => intro a ha; cases ha
  | cons x xs ih =>
    rw [List.map_cons, List.nodup_cons] at h
    intro a ha b hb hk
    rcases List.mem_cons.mp ha with rfl | ha2
    · rcases List.mem_cons.mp hb with rfl | hb2
      · rfl
      · refine absurd ?_ h.1
        rw [hk]
        exact List.mem_map_of_mem key hb2
    · rcases List.mem_cons.mp hb with rfl | hb2
      · refine absurd ?_ h.1
        rw [← hk]
        exact List.mem_map_of_mem key ha2
      · exact ih h.2 a ha2 b hb2 hk

theorem filter_key_eq_single {α β : Type} [DecidableEq β] (key : α → β)
    {l : List α} {x : α} (h : (l.map key).Nodup) (hx : x ∈ l) :
    l.filter (fun a => decide (key a = key x)) = [x] := by
  have hmem : x ∈ l.filter (fun a => decide (key a = key x)) := by
    rw [List.mem_filter]
    exact ⟨hx, by simp⟩
  have hlen := length_filter_key_le_one key l h (key x)
  match hfe : l.filter (fun a => decide (key a = key x)) with
  | [] => rw [hfe] at hmem; cases hmem
  | [y] =>
    rw [hfe] at hmem
    rw [List.mem_singleton] at hmem
    rw [hmem]
  | y :: z :: zs => rw [hfe] at hlen; simp at hlen

theorem sum_filter_mono {α : Type} (f : α → Nat) (p q : α → Bool) (l : List α)
    (h : ∀ a ∈ l, p a = true → q a = true) :
    ((l.filter p).map f).sum ≤ ((l.filter q).map f).sum := by
  induction l with
  | nil => simp
  | cons x xs ih =>
    have ih2 := ih fun a ha => h a (List.mem_cons_of_mem _ ha)
    by_cases hp : p x = true
    · rw [List.filter_cons_of_pos hp, List.filter_cons_of_pos (h x (List.mem_cons_self x xs) hp)]
      simpa using ih2
    · rw [List.filter_cons_of_neg (by simpa using hp)]
      by_cases hq : q x = true
      · rw [List.filter_cons_of_pos hq]
        simp only [List.map_cons, List.sum_cons]
        exact le_trans ih2 (Nat.le_add_left _ _)
      · rw [List.filter_cons_of_neg (by simpa using hq)]
        exact ih2

theorem sum_map_pos {α : Type} (f : α → Nat) (l : List α)
    (h : 0 < (l.map f).sum) : ∃ a ∈ l, 0 < f a := by
  induction l with
  | nil => simp at h
  | cons x xs ih =>
    simp only [List.map_cons, List.sum_cons] at h
    by_cases hx : 0 < f x
    · exact ⟨x, List.mem_cons_self x xs, hx⟩
    · have hxs : 0 < (xs.map f).sum := by omega
      obtain ⟨a, ha, hfa⟩ := ih hxs
      exact ⟨a, List.mem_cons_of_mem _ ha, hfa⟩

theorem two_le_length_of_mem {α : Type} {l : List α} {a b : α}
    (ha : a ∈ l) (hb : b ∈ l) (hne : a ≠ b) : 2 ≤ l.length := by
  match l with
  | [] => cases ha
  | [x] =>
    rw [List.mem_singleton] at ha hb
    exact absurd (ha.trans hb.symm) hne
  | x :: y :: ys => simp

theorem mem_cartRowsFor {m : RecipeRow} {i : InventoryRow} {cart : List CartLine}
    {r : SuffRow} :
    r ∈ cartRowsFor m i cart ↔
      ∃ c ∈ cart, c.id = m.menu_item_id ∧ r = mkSuffRow m i c := by
  rw [cartRowsFor, List.mem_filterMap]
  constructor
  · rintro ⟨c, hc, hr⟩
    by_cases hid : c.id = m.menu_item_id
    · rw [if_pos hid] at hr
      exact ⟨c, hc, hid, (Option.some_inj.mp hr).symm⟩
    · rw [if_neg hid] at hr
      cases hr
  · rintro ⟨c, hc, hid, rfl⟩
    exact ⟨c, hc, by rw [if_pos hid]⟩

theorem mem_rowsOfRecipe {inv : List InventoryRow} {m : RecipeRow}
    {cart : List CartLine} {r : SuffRow} :
    r ∈ rowsOfRecipe inv m cart ↔
      ∃ i ∈ inv, m.inventory_id = i.inventory_id ∧
        ∃ c ∈ cart, c.id = m.menu_item_id ∧ r = mkSuffRow m i c := by
  rw [rowsOfRecipe, List.mem_flatMap]
  constructor
  · rintro ⟨i, hi, hr⟩
    by_cases hmi : m.inventory_id = i.inventory_id
    · rw [if_pos hmi] at hr
      exact ⟨i, hi, hmi, mem_cartRowsFor.mp hr⟩
    · rw [if_neg hmi] at hr
      cases hr
  · rintro ⟨i, hi, hmi, hc⟩
    exact ⟨i, hi, by rw [if_pos hmi]; exact mem_cartRowsFor.mpr hc⟩

theorem mem_suffRows {inv : List InventoryRow} {mi : List RecipeRow}
    {cart : List CartLine} {r : SuffRow} :
    r ∈ suffRows inv mi cart ↔
      ∃ m ∈ mi, ∃ i ∈ inv, m.inventory_id = i.inventory_id ∧
        ∃ c ∈ cart, c.id = m.menu_item_id ∧ r = mkSuffRow m i c := by
  rw [suffRows, List.mem_flatMap]
  constructor
  · rintro ⟨m, hm, hr⟩
    exact ⟨m, hm, mem_rowsOfRecipe.mp hr⟩
  · rintro ⟨m, hm, hrest⟩
    exact ⟨m, hm, mem_rowsOfRecipe.mpr hrest⟩

theorem cartRowsFor_eq_map (m : RecipeRow) (i : InventoryRow)
    (cart : List CartLine) :
    cartRowsFor m i cart =
      (cart.filter fun c => decide (c.id = m.menu_item_id)).map (mkSuffRow m i) := by
  rw [cartRowsFor, filterMap_ite_eq_map_filter]

theorem totalByName_append (A B : List SuffRow) (n : String) :
    totalByName (A ++ B) n = totalByName A n + totalByName B n := by
  rw [totalByName, totalByName, totalByName, rowsFor, rowsFor, rowsFor,
    List.filter_append, List.map_append, List.sum_append]

theorem demandOfInventoryId_eq (mi : List RecipeRow) (cart : List CartLine)
    (invId : Nat) :
    demandOfInventoryId mi cart invId =
      ((mi.filter fun m => m.inventory_id = invId).map
        fun m => lineDemand m cart).sum := rfl

theorem demandOfInventoryId_cons (m : RecipeRow) (mi : List RecipeRow)
    (cart : List CartLine) (invId : Nat) :
    demandOfInventoryId (m :: mi) cart invId =
      (if m.inventory_id = invId then lineDemand m cart else 0) +
        demandOfInventoryId mi cart invId := by
  rw [demandOfInventoryId_eq, demandOfInventoryId_eq, List.filter_cons]
  by_cases hm : m.inventory_id = invId
  · simp [hm]
  · simp [hm]

theorem suffRows_cons (inv : List InventoryRow) (m : RecipeRow)
    (mi : List RecipeRow) (cart : List CartLine) :
    suffRows inv (m :: mi) cart =
      rowsOfRecipe inv m cart ++ suffRows inv mi cart := by
  rw [suffRows, suffRows, List.flatMap_cons]

theorem rowsOfRecipe_cons (i : InventoryRow) (inv : List InventoryRow)
    (m : RecipeRow) (cart : List CartLine) :
    rowsOfRecipe (i :: inv) m cart =
      (if m.inventory_id = i.inventory_id then cartRowsFor m i cart else []) ++
        rowsOfRecipe inv m cart := by
  rw [rowsOfRecipe, rowsOfRecipe, List.flatMap_cons]

theorem totalByName_cartRowsFor (m : RecipeRow) (i : InventoryRow)
    (cart : List CartLine) (n : String) :
    totalByName (cartRowsFor m i cart) n =
      if i.item_name = n then lineDemand m cart else 0 := by
  rw [totalByName, rowsFor, cartRowsFor_eq_map, List.filter_map]
  by_cases hn : i.item_name = n
  · rw [if_pos hn]
    have hall : ((cart.filter fun c => decide (c.id = m.menu_item_id)).filter
        ((fun r => decide (r.item_name = n)) ∘ mkSuffRow m i)) =
        cart.filter fun c => decide (c.id = m.menu_item_id) := by
      rw [List.filter_eq_self]
      intro c _
      simp [mkSuffRow, hn]
    rw [hall, lineDemand, List.map_map]
    rfl
  · rw [if_neg hn]
    have hnone : ((cart.filter fun c => decide (c.id = m.menu_item_id)).filter
        ((fun r => decide (r.item_name = n)) ∘ mkSuffRow m i)) = [] := by
      rw [List.filter_eq_nil_iff]
      intro c _
      simp [mkSuffRow, hn]
    rw [hnone]
    rfl

theorem totalByName_rowsOfRecipe_zero (inv : List InventoryRow) (m : RecipeRow)
    (cart : List CartLine) (n : String)
    (h : n ∉ inv.map fun i => i.item_name) :
    totalByName (rowsOfRecipe inv m cart) n = 0 := by
  induction inv with
  | nil => rfl
  | cons i rest ih =>
    rw [List.map_cons] at h
    rw [rowsOfRecipe_cons, totalByName_append]
    have h1 : totalByName (if m.inventory_id = i.inventory_id then
        cartRowsFor m i cart else []) n = 0 := by
      by_cases hm : m.inventory_id = i.inventory_id
      · rw [if_pos hm, totalByName_cartRowsFor, if_neg]
        intro he
        refine h ?_
        rw [← he]
        exact List.mem_cons_self _ _
      · rw [if_neg hm]
        rfl
    rw [h1, ih fun hmem => h (List.mem_cons_of_mem _ hmem)]

theorem totalByName_rowsOfRecipe (inv : List InventoryRow) (m : RecipeRow)
    (cart : List CartLine) (i : InventoryRow)
    (hnodup : (inv.map fun j => j.item_name).Nodup) (hi : i ∈ inv) :
    totalByName (rowsOfRecipe inv m cart) i.item_name =
      if m.inventory_id = i.inventory_id then lineDemand m cart else 0 := by
  induction inv with
  | nil => cases hi
  | cons j rest ih =>
    rw [List.map_cons, List.nodup_cons] at hnodup
    rw [rowsOfRecipe_cons, totalByName_append]
    rcases List.mem_cons.mp hi with rfl | hi2
    · have hz : totalByName (rowsOfRecipe rest m cart) i.item_name = 0 :=
        totalByName_rowsOfRecipe_zero rest m cart _ hnodup.1
      rw [hz]
      by_cases hm : m.inventory_id = i.inventory_id
      · rw [if_pos hm, if_pos hm, totalByName_cartRowsFor, if_pos rfl,
          Nat.add_zero]
      · rw [if_neg hm, if_neg hm]
        rfl
    · have hne : j.item_name ≠ i.item_name := fun he =>
        hnodup.1 (he ▸ List.mem_map_of_mem _ hi2)
      have h1 : totalByName (if m.inventory_id = j.inventory_id then
          cartRowsFor m j cart else []) i.item_name = 0 := by
        by_cases hm : m.inventory_id = j.inventory_id
        · rw [if_pos hm, totalByName_cartRowsFor, if_neg hne]
        · rw [if_neg hm]
          rfl
      rw [h1, ih hnodup.2 hi2, Nat.zero_add]

theorem totalByName_suffRows_eq_demand (inv : List InventoryRow)
    (mi : List RecipeRow) (cart : List CartLine) (i : InventoryRow)
    (hnodup : (inv.map fun j => j.item_name).Nodup) (hi : i ∈ inv) :
    totalByName (suffRows inv mi cart) i.item_name =
      demandOfInventoryId mi cart i.inventory_id := by
  induction mi with
  | nil => rfl
  | cons m rest ih =>
    rw [suffRows_cons, totalByName_append, demandOfInventoryId_cons, ih,
      totalByName_rowsOfRecipe inv m cart i hnodup hi]

theorem lineDemand_le_totalByName_rowsOfRecipe (inv : List InventoryRow)
    (m : RecipeRow) (cart : List CartLine) (i : InventoryRow) (hi : i ∈ inv) :
    (if m.inventory_id = i.inventory_id then lineDemand m cart else 0) ≤
      totalByName (rowsOfRecipe inv m cart) i.item_name := by
  induction inv with
  | nil => cases hi
  | cons j rest ih =>
    rw [rowsOfRecipe_cons, totalByName_append]
    rcases List.mem_cons.mp hi with rfl | hi2
    · refine le_trans ?_ (Nat.le_add_right _ _)
      by_cases hm : m.inventory_id = i.inventory_id
      · rw [if_pos hm, if_pos hm, totalByName_cartRowsFor, if_pos rfl]
      · rw [if_neg hm]
        exact Nat.zero_le _
    · exact le_trans (ih hi2) (Nat.le_add_left _ _)

theorem demand_le_totalByName_suffRows (inv : List InventoryRow)
    (mi : List RecipeRow) (cart : List CartLine) (i : InventoryRow)
    (hi : i ∈ inv) :
    demandOfInventoryId mi cart i.inventory_id ≤
      totalByName (suffRows inv mi cart) i.item_name := by
  induction mi with
  | nil => exact Nat.zero_le _
  | cons m rest ih =>
    rw [suffRows_cons, totalByName_append, demandOfInventoryId_cons]
    exact Nat.add_le_add (lineDemand_le_totalByName_rowsOfRecipe inv m cart i hi) ih

theorem lowRow_eq_some_of_exists {rows : List SuffRow}
    (h : ∃ r ∈ rows, r.stock_level < totalByName rows r.item_name) :
    ∃ r2, lowRow rows = some r2 := by
  rcases h with ⟨r, hr, hlt⟩
  rw [lowRow]
  cases hfind : rows.find?
      (fun r => decide (r.stock_level < totalByName rows r.item_name)) with
  | some r2 => exact ⟨r2, rfl⟩
  | none =>
    rw [List.find?_eq_none] at hfind
    exact absurd hlt (by simpa using hfind r hr)

theorem find?_first_decomp {α : Type} {p : α → Bool} {l : List α} {r : α}
    (h : l.find? p = some r) :
    ∃ l1 l2, l = l1 ++ r :: l2 ∧ (∀ x ∈ l1, p x = false) ∧ p r = true := by
  induction l with
  | nil => cases h
  | cons x xs ih =>
    cases hx : p x with
    | true =>
      rw [List.find?_cons_of_pos _ hx] at h
      refine ⟨[], xs, ?_, ?_, ?_⟩
      · rw [Option.some_inj.mp h]
        rfl
      · intro y hy; cases hy
      · rw [← Option.some_inj.mp h]
        exact hx
    | false =>
      rw [List.find?_cons_of_neg _ (by simp [hx])] at h
      obtain ⟨l1, l2, hsplit, hbefore, hr⟩ := ih h
      refine ⟨x :: l1, l2, by rw [hsplit, List.cons_append], ?_, hr⟩
      intro y hy
      rcases List.mem_cons.mp hy with rfl | hy2
      · exact hx
      · exact hbefore y hy2

theorem check_eq_low_of_lowRow {inv : List InventoryRow} {mi : List RecipeRow}
    {cart : List CartLine} {r : SuffRow}
    (h : lowRow (suffRows inv mi cart) = some r) :
    checkSufficientIngredients inv mi cart =
      .low { ingredientName := r.item_name
             currStock := r.stock_level
             neededStock := totalByName (suffRows inv mi cart) r.item_name
             menuItemsUsing := usedByName (suffRows inv mi cart) r.item_name } := by
  simp [checkSufficientIngredients, h]

theorem check_eq_ok_of_lowRow_none {inv : List InventoryRow} {mi : List RecipeRow}
    {cart : List CartLine} (h : lowRow (suffRows inv mi cart) = none) :
    checkSufficientIngredients inv mi cart =
      .ok (breakdown (suffRows inv mi cart) cart) := by
  simp [checkSufficientIngredients, h]

theorem mem_firstKeys {cart : List CartLine} {c : CartLine} (hc : c ∈ cart) :
    c.id ∈ firstKeys cart := by
  induction cart with
  | nil => cases hc
  | cons x xs ih =>
    rw [firstKeys]
    rcases List.mem_cons.mp hc with rfl | h2
    · exact List.mem_cons_self _ _
    · by_cases hid : c.id = x.id
      · rw [hid]
        exact List.mem_cons_self _ _
      · refine List.mem_cons_of_mem _ ?_
        rw [List.mem_filter]
        exact ⟨ih h2, by simp [hid]⟩

theorem lastLineFor_of_mem {cart : List CartLine} {c : CartLine} (hc : c ∈ cart) :
    ∃ lc, lastLineFor cart c.id = some lc := by
  rw [lastLineFor]
  cases hlast : (cart.filter fun x => decide (x.id = c.id)).getLast? with
  | some lc => exact ⟨lc, rfl⟩
  | none =>
    rw [List.getLast?_eq_none_iff] at hlast
    have : c ∈ cart.filter fun x => decide (x.id = c.id) := by
      rw [List.mem_filter]
      exact ⟨hc, by simp⟩
    rw [hlast] at this
    cases this

theorem breakdown_mem {rows : List SuffRow} {cart : List CartLine} {c : CartLine}
    (hc : c ∈ cart) :
    ∃ e ∈ breakdown rows cart,
      e.ingredient = (rows.filter fun r => r.menu_item_id = c.id).map
        fun r => { ingredientName := r.item_name
                   amount := r.total_quantity_needed : BreakdownIngredient } := by
  obtain ⟨lc, hlast⟩ := lastLineFor_of_mem hc
  refine ⟨{ name := lc.name
            amount := lc.quantity
            ingredient := (rows.filter fun r => r.menu_item_id = c.id).map
              fun r => { ingredientName := r.item_name
                         amount := r.total_quantity_needed } },
    List.mem_filterMap.mpr ⟨c.id, mem_firstKeys hc, ?_⟩, rfl⟩
  simp only [breakdown, hlast]

/-- C1 (amended): provided the inventory item names are pairwise distinct,
for every cart in which, for every inventory item, the demand aggregated
across all cart lines (recipe `quantityNeeded` times the quantity ordered,
summed over every cart line whose menu item's recipe uses that inventory
item) is at most that item's current stock level, `checkSufficientIngredients`
returns a not-low result whose per-menu-item breakdown lists, for each cart
line, each recipe ingredient with amount equal to `quantityNeeded` times the
line's quantity ordered; equality counts as sufficient.  (The distinct-name
hypothesis is forced by the counterexample: the code aggregates demand by
item NAME, so two same-named inventory rows pool their demand.) -/
theorem claim_C1 (inv : List InventoryRow) (mi : List RecipeRow)
    (cart : List CartLine)
    (hnames : (inv.map fun i => i.item_name).Nodup)
    (hsuff : ∀ i ∈ inv,
      demandOfInventoryId mi cart i.inventory_id ≤ i.stock_level) :
    ∃ items, checkSufficientIngredients inv mi cart = .ok items ∧
      ∀ c ∈ cart, ∃ e ∈ items,
        ∀ m ∈ mi, m.menu_item_id = c.id →
          ∀ i ∈ inv, i.inventory_id = m.inventory_id →
            ({ ingredientName := i.item_name
               amount := m.quantity_needed * c.quantity } :
              BreakdownIngredient) ∈ e.ingredient := by
  have hnone : lowRow (suffRows inv mi cart) = none := by
    rw [lowRow, List.find?_eq_none]
    intro r hr
    obtain ⟨m, hm, i, hi, hmi, c, hc, hcm, rfl⟩ := mem_suffRows.mp hr
    have heq := totalByName_suffRows_eq_demand inv mi cart i hnames hi
    simp only [decide_eq_true_eq]
    show ¬ i.stock_level < totalByName (suffRows inv mi cart) i.item_name
    rw [heq]
    exact Nat.not_lt.mpr (hsuff i hi)
  refine ⟨breakdown (suffRows inv mi cart) cart,
    check_eq_ok_of_lowRow_none hnone, ?_⟩
  intro c hc
  obtain ⟨e, he, hing⟩ :=
    @breakdown_mem (suffRows inv mi cart) cart c hc
  refine ⟨e, he, ?_⟩
  intro m hm hmc i hi hinv
  rw [hing, List.mem_map]
  refine ⟨mkSuffRow m i c, ?_, rfl⟩
  rw [List.mem_filter]
  refine ⟨mem_suffRows.mpr ⟨m, hm, i, hi, hinv.symm, c, hc, hmc.symm, rfl⟩, ?_⟩
  simp [mkSuffRow, hmc]

/-- Witness for C1 at a concrete sufficient cart: stock 5 of Y, recipe needs
2 Y per X, two X ordered (demand 4 ≤ 5). -/
theorem claim_C1_witness :
    ∃ items, checkSufficientIngredients [⟨1, "Y", 5⟩] [⟨10, 1, 2⟩]
        [⟨10, "X", 3, 2⟩] = .ok items ∧
      ∀ c ∈ ([⟨10, "X", 3, 2⟩] : List CartLine), ∃ e ∈ items,
        ∀ m ∈ ([⟨10, 1, 2⟩] : List RecipeRow), m.menu_item_id = c.id →
          ∀ i ∈ ([⟨1, "Y", 5⟩] : List InventoryRow),
            i.inventory_id = m.inventory_id →
            ({ ingredientName := i.item_name
               amount := m.quantity_needed * c.quantity } :
              BreakdownIngredient) ∈ e.ingredient :=
  claim_C1 [⟨1, "Y", 5⟩] [⟨10, 1, 2⟩] [⟨10, "X", 3, 2⟩]
    (by decide) (by decide)

/-- Counterexample to C1 as stated: two inventory rows share the name
"salt" (ids 1 and 2, stock 5 each); each is demanded 4 by a different menu
item, so per-item demand 4 ≤ 5 everywhere, yet the code pools demand by
name (4 + 4 = 8 > 5) and reports a shortage. -/
theorem claim_C1_counterexample :
    (∀ i ∈ ([⟨1, "salt", 5⟩, ⟨2, "salt", 5⟩] : List InventoryRow),
      demandOfInventoryId [⟨10, 1, 4⟩, ⟨11, 2, 4⟩]
        [⟨10, "A", 1, 1⟩, ⟨11, "B", 1, 1⟩] i.inventory_id ≤ i.stock_level) ∧
    (checkSufficientIngredients [⟨1, "salt", 5⟩, ⟨2, "salt", 5⟩]
      [⟨10, 1, 4⟩, ⟨11, 2, 4⟩]
      [⟨10, "A", 1, 1⟩, ⟨11, "B", 1, 1⟩]).isLow = true :=
  ⟨by decide, by decide⟩

theorem exists_low_suffRow {inv : List InventoryRow} {mi : List RecipeRow}
    {cart : List CartLine} {i : InventoryRow} (hi : i ∈ inv)
    (hover : i.stock_level < demandOfInventoryId mi cart i.inventory_id) :
    ∃ r ∈ suffRows inv mi cart,
      r.stock_level < totalByName (suffRows inv mi cart) r.item_name := by
  have hpos : 0 < demandOfInventoryId mi cart i.inventory_id :=
    Nat.lt_of_le_of_lt (Nat.zero_le _) hover
  rw [demandOfInventoryId_eq] at hpos
  obtain ⟨m, hmf, hld⟩ := sum_map_pos _ _ hpos
  rw [List.mem_filter] at hmf
  obtain ⟨hm, hmid⟩ := hmf
  rw [lineDemand] at hld
  obtain ⟨c, hcf, _⟩ := sum_map_pos _ _ hld
  rw [List.mem_filter] at hcf
  obtain ⟨hc, hcid⟩ := hcf
  refine ⟨mkSuffRow m i c,
    mem_suffRows.mpr ⟨m, hm, i, hi, by simpa using hmid, c, hc,
      by simpa using hcid, rfl⟩, ?_⟩
  show i.stock_level < totalByName (suffRows inv mi cart) i.item_name
  have hid : m.inventory_id = i.inventory_id := by simpa using hmid
  exact Nat.lt_of_lt_of_le hover
    (demand_le_totalByName_suffRows inv mi cart i hi)

/-- C4: for every request whose cart over-demands some inventory item
(spec-keyed by inventory id; over Nat quantities this forces the by-name
pool over its threshold too), `placeOrder` answers with the shortage
descriptor — which records a needed stock strictly above the available
stock — and returns the store exactly as it was: no `orders` row and no
`order_menu` row is written. -/
theorem claim_C4 (body : OrderBody) (db : Db)
    (hover : ∃ i ∈ db.inventory,
      i.stock_level <
        demandOfInventoryId db.menu_ingredients body.itemAmount
          i.inventory_id) :
    ∃ s, placeOrder body db = (.lowStock s, db) ∧
      s.currStock < s.neededStock := by
  obtain ⟨i, hi, hlt⟩ := hover
  obtain ⟨r2, hlow⟩ := lowRow_eq_some_of_exists (exists_low_suffRow hi hlt)
  have hchk := check_eq_low_of_lowRow hlow
  refine ⟨_, by rw [placeOrder, hchk], ?_⟩
  have hfind := hlow
  rw [lowRow] at hfind
  have hpred := List.find?_some hfind
  simpa using hpred

/-- Witness for C4: stock 3 of Y, the cart demands 4; no write happens. -/
theorem claim_C4_witness :
    ∃ s, placeOrder ⟨[⟨10, "X", 3, 2⟩], 6, 0⟩
        { inventory := [⟨1, "Y", 3⟩], menu := [], menu_ingredients := [⟨10, 1, 2⟩],
          orders := [], order_menu := [], nextOrderId := 5 } =
      (.lowStock s,
        { inventory := [⟨1, "Y", 3⟩], menu := [], menu_ingredients := [⟨10, 1, 2⟩],
          orders := [], order_menu := [], nextOrderId := 5 }) ∧
      s.currStock < s.neededStock :=
  claim_C4 ⟨[⟨10, "X", 3, 2⟩], 6, 0⟩
    { inventory := [⟨1, "Y", 3⟩], menu := [], menu_ingredients := [⟨10, 1, 2⟩],
      orders := [], order_menu := [], nextOrderId := 5 }
    ⟨⟨1, "Y", 3⟩, by decide, by decide⟩

/-- C6: for every cart over-demanding some inventory item, the check comes
back low, and the reported shortage is exactly the first result row in the
model's deterministic iteration order whose stock is below its name-pooled
demand; the rows after that first failure are never examined (first-failure
semantics).  Determinism across runs holds because the embedded check is a
function of the cart and the stock state alone. -/
theorem claim_C6 (inv : List InventoryRow) (mi : List RecipeRow)
    (cart : List CartLine)
    (hover : ∃ i ∈ inv,
      i.stock_level < demandOfInventoryId mi cart i.inventory_id) :
    ∃ r l1 l2,
      suffRows inv mi cart = l1 ++ r :: l2 ∧
      (∀ x ∈ l1,
        ¬ x.stock_level < totalByName (suffRows inv mi cart) x.item_name) ∧
      r.stock_level < totalByName (suffRows inv mi cart) r.item_name ∧
      checkSufficientIngredients inv mi cart =
        .low { ingredientName := r.item_name
               currStock := r.stock_level
               neededStock := totalByName (suffRows inv mi cart) r.item_name
               menuItemsUsing := usedByName (suffRows inv mi cart) r.item_name } := by
  obtain ⟨i, hi, hlt⟩ := hover
  obtain ⟨r, hlow⟩ := lowRow_eq_some_of_exists (exists_low_suffRow hi hlt)
  have hfind := hlow
  rw [lowRow] at hfind
  obtain ⟨l1, l2, hsplit, hbefore, hr⟩ := find?_first_decomp hfind
  exact ⟨r, l1, l2, hsplit,
    fun x hx => by simpa using hbefore x hx,
    by simpa using hr,
    check_eq_low_of_lowRow hlow⟩

/-- Witness for C6: stock 3 of Z, demand 4; the first failing row is
reported. -/
theorem claim_C6_witness :
    ∃ r l1 l2,
      suffRows [⟨7, "Z", 3⟩] [⟨20, 7, 1⟩] [⟨20, "W", 2, 4⟩] = l1 ++ r :: l2 ∧
      (∀ x ∈ l1,
        ¬ x.stock_level <
          totalByName (suffRows [⟨7, "Z", 3⟩] [⟨20, 7, 1⟩] [⟨20, "W", 2, 4⟩])
            x.item_name) ∧
      r.stock_level <
        totalByName (suffRows [⟨7, "Z", 3⟩] [⟨20, 7, 1⟩] [⟨20, "W", 2, 4⟩])
          r.item_name ∧
      checkSufficientIngredients [⟨7, "Z", 3⟩] [⟨20, 7, 1⟩] [⟨20, "W", 2, 4⟩] =
        .low { ingredientName := r.item_name
               currStock := r.stock_level
               neededStock :=
                 totalByName
                   (suffRows [⟨7, "Z", 3⟩] [⟨20, 7, 1⟩] [⟨20, "W", 2, 4⟩])
                   r.item_name
               menuItemsUsing :=
                 usedByName
                   (suffRows [⟨7, "Z", 3⟩] [⟨20, 7, 1⟩] [⟨20, "W", 2, 4⟩])
                   r.item_name } :=
  claim_C6 [⟨7, "Z", 3⟩] [⟨20, 7, 1⟩] [⟨20, "W", 2, 4⟩]
    ⟨⟨7, "Z", 3⟩, by decide, by decide⟩

/-- C7: on the empty cart, the client-side `placeOrder` throws the
empty-order validation error before issuing any request: the store is
untouched, so no `orders` row and no `order_menu` row is created. -/
theorem claim_C7 : ∀ (userId : Int) (db : Db),
    cartPlaceOrder [] userId db =
      (.emptyError "Your order is empty. Please add items first.", db) := by
  intro userId db
  rfl

/-- C9: placing an order never touches the inventory table, whatever the
outcome: the store returned by `placeOrder` (which runs
`checkSufficientIngredients`, itself a pure read of `inventory` and
`menu_ingredients`) carries the inventory rows unchanged; stock is never
decremented. -/
theorem claim_C9 : ∀ (body : OrderBody) (db : Db),
    ((placeOrder body db).2).inventory = db.inventory ∧
    ((placeOrder body db).2).menu_ingredients = db.menu_ingredients ∧
    ∀ (items : List CartLine) (userId : Int),
      ((cartPlaceOrder items userId db).2).inventory = db.inventory := by
  intro body db
  refine ⟨?_, ?_, ?_⟩
  · rw [placeOrder]
    cases checkSufficientIngredients db.inventory db.menu_ingredients
      body.itemAmount with
    | low s => rfl
    | ok items => rfl
  · rw [placeOrder]
    cases checkSufficientIngredients db.inventory db.menu_ingredients
      body.itemAmount with
    | low s => rfl
    | ok items => rfl
  · intro items userId
    rw [cartPlaceOrder]
    by_cases hlen : items.length = 0
    · rw [if_pos hlen]
    · rw [if_neg hlen]
      rw [placeOrder]
      cases checkSufficientIngredients db.inventory db.menu_ingredients items with
      | low s => rfl
      | ok its => rfl

/-- C10: the check aggregates demand by inventory item NAME and compares
that pooled total against each result row's own stock: it reports low
exactly when some row's stock is below the pooled demand of its name.  The
concrete second part shows two same-named rows (ids 3 and 4, stock 10 each,
demand 6 each): every row's own demand is within its own stock, yet the
check reports a shortage because the pooled name total 12 exceeds 10. -/
theorem claim_C10 :
    (∀ (inv : List InventoryRow) (mi : List RecipeRow) (cart : List CartLine),
      (checkSufficientIngredients inv mi cart).isLow = true ↔
        ∃ r ∈ suffRows inv mi cart,
          r.stock_level < totalByName (suffRows inv mi cart) r.item_name) ∧
    ((∀ i ∈ ([⟨3, "oil", 10⟩, ⟨4, "oil", 10⟩] : List InventoryRow),
        demandOfInventoryId [⟨30, 3, 6⟩, ⟨31, 4, 6⟩]
          [⟨30, "P", 1, 1⟩, ⟨31, "Q", 1, 1⟩] i.inventory_id ≤ i.stock_level) ∧
      (checkSufficientIngredients [⟨3, "oil", 10⟩, ⟨4, "oil", 10⟩]
        [⟨30, 3, 6⟩, ⟨31, 4, 6⟩]
        [⟨30, "P", 1, 1⟩, ⟨31, "Q", 1, 1⟩]).isLow = true) := by
  constructor
  · intro inv mi cart
    constructor
    · intro h
      cases hl : lowRow (suffRows inv mi cart) with
      | none =>
        rw [check_eq_ok_of_lowRow_none hl] at h
        simp [CheckResult.isLow] at h
      | some r =>
        have hfind := hl
        rw [lowRow] at hfind
        exact ⟨r, List.mem_of_find?_eq_some hfind,
          by simpa using List.find?_some hfind⟩
    · intro h
      obtain ⟨r2, hl⟩ := lowRow_eq_some_of_exists h
      rw [check_eq_low_of_lowRow hl]
      rfl
  · exact ⟨by decide, by decide⟩

/-- C8 (amended): for every non-empty cart that passes the sufficiency
check, the inserted `orders` row's total is the CLIENT-computed total —
the sum of price times quantity plus 8.25 percent sales tax, i.e.
`subtotal * 10825/10000` — and exactly one `order_menu` row is inserted
per cart line.  (The claim's tax-free total is what the counterexample
refutes; the per-line insertion holds as claimed.) -/
theorem claim_C8 (items : List CartLine) (userId : Int) (db : Db)
    (hne : items ≠ [])
    (hok : (checkSufficientIngredients db.inventory db.menu_ingredients
      items).isLow = false) :
    clientTotal items = subtotalOf items * (10825 / 10000) ∧
    (cartPlaceOrder items userId db).2.orders =
      db.orders ++ [{ order_id := db.nextOrderId
                      employee_id := userId
                      order_total := clientTotal items
                      order_status :=
                        if anyBuilding db.orders then "waiting"
                        else "building" }] ∧
    (cartPlaceOrder items userId db).2.order_menu =
      db.order_menu ++ items.map fun c =>
        { order_id := db.nextOrderId, menu_item_id := c.id,
          quantity_ordered := c.quantity } := by
  obtain ⟨bd, hbd⟩ : ∃ bd, checkSufficientIngredients db.inventory
      db.menu_ingredients items = .ok bd := by
    cases hchk : checkSufficientIngredients db.inventory db.menu_ingredients
        items with
    | low s =>
      rw [hchk] at hok
      simp [CheckResult.isLow] at hok
    | ok bd => exact ⟨bd, rfl⟩
  have hlen : ¬ items.length = 0 := fun h0 => hne (List.length_eq_zero.mp h0)
  refine ⟨?_, ?_, ?_⟩
  · rw [clientTotal, taxOf]
    ring
  · rw [cartPlaceOrder, if_neg hlen]
    simp [placeOrder, hbd]
  · rw [cartPlaceOrder, if_neg hlen]
    simp [placeOrder, hbd]

/-- Witness for C8 at a concrete sufficient cart. -/
theorem claim_C8_witness :
    clientTotal [⟨10, "X", 3, 2⟩] =
      subtotalOf [⟨10, "X", 3, 2⟩] * (10825 / 10000) ∧
    (cartPlaceOrder [⟨10, "X", 3, 2⟩] 42
        { inventory := [⟨1, "Y", 5⟩], menu := [], menu_ingredients := [⟨10, 1, 2⟩],
          orders := [], order_menu := [], nextOrderId := 7 }).2.orders =
      [] ++ [{ order_id := 7
               employee_id := 42
               order_total := clientTotal [⟨10, "X", 3, 2⟩]
               order_status :=
                 if anyBuilding [] then "waiting" else "building" }] ∧
    (cartPlaceOrder [⟨10, "X", 3, 2⟩] 42
        { inventory := [⟨1, "Y", 5⟩], menu := [], menu_ingredients := [⟨10, 1, 2⟩],
          orders := [], order_menu := [], nextOrderId := 7 }).2.order_menu =
      [] ++ ([⟨10, "X", 3, 2⟩] : List CartLine).map fun c =>
        { order_id := 7, menu_item_id := c.id, quantity_ordered := c.quantity } :=
  claim_C8 [⟨10, "X", 3, 2⟩] 42
    { inventory := [⟨1, "Y", 5⟩], menu := [], menu_ingredients := [⟨10, 1, 2⟩],
      orders := [], order_menu := [], nextOrderId := 7 }
    (by decide) (by decide)

/-- Counterexample to C8 as stated: one line of price 100, quantity 1.  The
stored total is 108.25 = 433/4 (the client adds 8.25 percent tax), not the
claimed sum of price times quantity, which is 100. -/
theorem claim_C8_counterexample :
    ((cartPlaceOrder [⟨1, "Bowl", 100, 1⟩] 0
        { inventory := [], menu := [], menu_ingredients := [], orders := [],
          order_menu := [], nextOrderId := 0 }).2.orders.map
      fun o => o.order_total) = [(433 : ℚ) / 4] ∧
    subtotalOf [⟨1, "Bowl", 100, 1⟩] = 100 ∧
    ((433 : ℚ) / 4) ≠ 100 := by
  refine ⟨?_, ?_, ?_⟩
  · rw [cartPlaceOrder, if_neg (by simp)]
    have hchk : checkSufficientIngredients [] [] [⟨1, "Bowl", 100, 1⟩] =
        .ok (breakdown [] [⟨1, "Bowl", 100, 1⟩]) := rfl
    simp [placeOrder, hchk, clientTotal, taxOf, subtotalOf]
    norm_num
  · simp [subtotalOf]
  · norm_num

theorem minId?_eq_none_iff {l : List Nat} : minId? l = none ↔ l = [] := by
  cases l with
  | nil => simp [minId?]
  | cons x xs =>
    rw [minId?]
    cases h : minId? xs <;> simp

theorem minId?_mem : ∀ {l : List Nat} {m : Nat}, minId? l = some m → m ∈ l := by
  intro l
  induction l with
  | nil => intro m h; cases h
  | cons x xs ih =>
    intro m h
    rw [minId?] at h
    cases hxs : minId? xs with
    | none =>
      rw [hxs] at h
      rw [← Option.some_inj.mp h]
      exact List.mem_cons_self _ _
    | some m2 =>
      rw [hxs] at h
      have hm : (if x ≤ m2 then x else m2) = m := Option.some_inj.mp h
      by_cases hle : x ≤ m2
      · rw [if_pos hle] at hm
        rw [← hm]
        exact List.mem_cons_self _ _
      · rw [if_neg hle] at hm
        rw [← hm]
        exact List.mem_cons_of_mem _ (ih hxs)

theorem minId?_le : ∀ {l : List Nat} {m : Nat}, minId? l = some m →
    ∀ x ∈ l, m ≤ x := by
  intro l
  induction l with
  | nil => intro m _ x hx; cases hx
  | cons y ys ih =>
    intro m h x hx
    rw [minId?] at h
    cases hys : minId? ys with
    | none =>
      rw [hys] at h
      rw [minId?_eq_none_iff] at hys
      rw [hys] at hx
      rw [List.mem_singleton] at hx
      rw [hx, ← Option.some_inj.mp h]
    | some m2 =>
      rw [hys] at h
      have hm : (if y ≤ m2 then y else m2) = m := Option.some_inj.mp h
      have hym : m ≤ y ∧ m ≤ m2 := by
        by_cases hle : y ≤ m2
        · rw [if_pos hle] at hm
          omega
        · rw [if_neg hle] at hm
          omega
      rcases List.mem_cons.mp hx with rfl | hx2
      · exact hym.1
      · exact le_trans hym.2 (ih hys x hx2)

theorem minId?_isSome_of_mem {l : List Nat} {x : Nat} (hx : x ∈ l) :
    ∃ m, minId? l = some m := by
  cases h : minId? l with
  | some m => exact ⟨m, rfl⟩
  | none =>
    rw [minId?_eq_none_iff] at h
    rw [h] at hx
    cases hx

theorem mem_statusIds {orders : List OrderRow} {st : String} {idv : Nat} :
    idv ∈ statusIds orders st ↔
      ∃ o ∈ orders, o.order_status = st ∧ o.order_id = idv := by
  rw [statusIds, List.mem_map]
  constructor
  · rintro ⟨o, ho, rfl⟩
    rw [List.mem_filter] at ho
    exact ⟨o, ho.1, by simpa using ho.2, rfl⟩
  · rintro ⟨o, ho, hst, rfl⟩
    exact ⟨o, List.mem_filter.mpr ⟨ho, by simpa using hst⟩, rfl⟩

theorem bVal_eq_of_building {orders : List OrderRow} {o : OrderRow}
    (hB : buildingCount orders ≤ 1) (ho : o ∈ orders)
    (hst : o.order_status = "building") :
    minId? (statusIds orders "building") = some o.order_id := by
  obtain ⟨m, hm⟩ := minId?_isSome_of_mem (mem_statusIds.mpr ⟨o, ho, hst, rfl⟩)
  rw [hm]
  obtain ⟨o2, ho2, hst2, hid2⟩ := mem_statusIds.mp (minId?_mem hm)
  have h1 : o ∈ orders.filter fun x => decide (x.order_status = "building") :=
    List.mem_filter.mpr ⟨ho, by simpa using hst⟩
  have h2 : o2 ∈ orders.filter fun x => decide (x.order_status = "building") :=
    List.mem_filter.mpr ⟨ho2, by simpa using hst2⟩
  have hB2 : (orders.filter fun x =>
      decide (x.order_status = "building")).length ≤ 1 := hB
  have heq : o2 = o := eq_of_mem_of_length_le_one h2 h1 hB2
  rw [← hid2, heq]

theorem status_of_minId_statusIds {orders : List OrderRow} {o : OrderRow}
    {st : String}
    (hN : (orders.map fun x => x.order_id).Nodup) (ho : o ∈ orders)
    (hm : minId? (statusIds orders st) = some o.order_id) :
    o.order_status = st := by
  obtain ⟨o2, ho2, hst2, hid2⟩ := mem_statusIds.mp (minId?_mem hm)
  have heq : o2 = o := nodup_map_inj hN o2 ho2 o ho (by rw [hid2])
  rw [← heq]
  exact hst2

theorem advanceOrder_id (b w : Option Nat) (o : OrderRow) :
    (advanceOrder b w o).order_id = o.order_id := by
  rw [advanceOrder]
  split
  · rfl
  · split <;> rfl

theorem advanceLane_orders (db : Db) :
    (advanceLane db).orders = db.orders.map (advanceOrder (bVal db) (wVal db)) :=
  rfl

theorem buildingCount_append (l1 l2 : List OrderRow) :
    buildingCount (l1 ++ l2) = buildingCount l1 + buildingCount l2 := by
  rw [buildingCount, buildingCount, buildingCount, List.filter_append,
    List.length_append]

theorem buildingCount_eq_zero_of_anyBuilding_false {orders : List OrderRow}
    (h : anyBuilding orders = false) : buildingCount orders = 0 := by
  rw [buildingCount, List.length_eq_zero, List.filter_eq_nil_iff]
  rw [anyBuilding] at h
  intro o ho
  simpa using List.any_eq_false.mp h o ho

theorem placeOrder_cases (body : OrderBody) (db : Db) :
    (placeOrder body db).2 = db ∨
    (placeOrder body db).2 =
      { db with
        orders := db.orders ++
          [{ order_id := db.nextOrderId
             employee_id := body.emID
             order_total := body.total
             order_status :=
               if anyBuilding db.orders then "waiting" else "building" }]
        order_menu := db.order_menu ++ body.itemAmount.map fun c =>
          { order_id := db.nextOrderId, menu_item_id := c.id,
            quantity_ordered := c.quantity }
        nextOrderId := db.nextOrderId + 1 } := by
  rw [placeOrder]
  cases checkSufficientIngredients db.inventory db.menu_ingredients
      body.itemAmount with
  | low s => exact Or.inl rfl
  | ok bd => exact Or.inr rfl

theorem wf_placeOrder (body : OrderBody) (db : Db) (h : WfLedger db) :
    WfLedger (placeOrder body db).2 := by
  rcases placeOrder_cases body db with heq | heq
  · rw [heq]
    exact h
  · rw [heq]
    constructor
    · show ((db.orders ++ _).map fun o => o.order_id).Nodup
      rw [List.map_append]
      refine List.Nodup.append h.1 (List.nodup_singleton _) ?_
      intro a ha hb
      simp only [List.map_cons, List.map_nil, List.mem_singleton] at hb
      obtain ⟨o, ho, hid⟩ := List.mem_map.mp ha
      have hid2 : o.order_id = a := hid
      have hlt := h.2 o ho
      omega
    · intro o ho
      rw [List.mem_append] at ho
      rcases ho with ho | ho
      · exact Nat.lt_trans (h.2 o ho) (Nat.lt_succ_self _)
      · rw [List.mem_singleton] at ho
        rw [ho]
        exact Nat.lt_succ_self _

theorem count_placeOrder (body : OrderBody) (db : Db)
    (h2 : buildingCount db.orders ≤ 1) :
    buildingCount (placeOrder body db).2.orders ≤ 1 := by
  rcases placeOrder_cases body db with heq | heq
  · rw [heq]
    exact h2
  · rw [heq]
    show buildingCount (db.orders ++ _) ≤ 1
    rw [buildingCount_append]
    cases hab : anyBuilding db.orders with
    | false =>
      rw [buildingCount_eq_zero_of_anyBuilding_false hab]
      simp [buildingCount]
    | true =>
      have hnew : buildingCount ([⟨db.nextOrderId, body.emID, body.total,
          if (true : Bool) = true then "waiting" else "building"⟩] :
          List OrderRow) = 0 := by
        simp [buildingCount]
      omega

theorem wf_advanceLane (db : Db) (h : WfLedger db) :
    WfLedger (advanceLane db) := by
  have hids : (advanceLane db).orders.map (fun o => o.order_id) =
      db.orders.map fun o => o.order_id := by
    rw [advanceLane_orders, List.map_map]
    have hfun : ((fun o : OrderRow => o.order_id) ∘
        advanceOrder (bVal db) (wVal db)) = fun o : OrderRow => o.order_id :=
      funext fun o => advanceOrder_id _ _ o
    rw [hfun]
  constructor
  · rw [hids]
    exact h.1
  · intro o ho
    rw [advanceLane_orders] at ho
    obtain ⟨o2, ho2, rfl⟩ := List.mem_map.mp ho
    show (advanceOrder (bVal db) (wVal db) o2).order_id < (advanceLane db).nextOrderId
    rw [advanceOrder_id]
    exact h.2 o2 ho2

theorem advance_building_imp (db : Db) (hB : buildingCount db.orders ≤ 1) :
    ∀ o ∈ db.orders,
      (advanceOrder (bVal db) (wVal db) o).order_status = "building" →
        wVal db = some o.order_id := by
  intro o ho hst
  rw [advanceOrder] at hst
  by_cases hb : bVal db = some o.order_id
  · rw [if_pos hb] at hst
    simp at hst
  · rw [if_neg hb] at hst
    by_cases hwo : wVal db = some o.order_id
    · exact hwo
    · rw [if_neg hwo] at hst
      exact absurd (bVal_eq_of_building hB ho hst) hb

theorem count_advanceLane (db : Db)
    (hN : (db.orders.map fun o => o.order_id).Nodup)
    (hB : buildingCount db.orders ≤ 1) :
    buildingCount (advanceLane db).orders ≤ 1 := by
  rw [advanceLane_orders, buildingCount, List.filter_map, List.length_map]
  cases hw : wVal db with
  | none =>
    have hnil : db.orders.filter ((fun o => decide (o.order_status = "building")) ∘
        advanceOrder (bVal db) none) = [] := by
      rw [List.filter_eq_nil_iff]
      intro o ho hdec
      have hdec2 : (advanceOrder (bVal db) (wVal db) o).order_status =
          "building" := by
        rw [hw]
        simpa using hdec
      have hsel := advance_building_imp db hB o ho hdec2
      rw [hw] at hsel
      cases hsel
    rw [hnil]
    simp
  | some wid =>
    refine le_trans (length_filter_le_of_imp _ _ _ ?_)
      (length_filter_key_le_one (fun o => o.order_id) db.orders hN wid)
    intro o ho hdec
    have hdec2 : (advanceOrder (bVal db) (wVal db) o).order_status =
        "building" := by
      rw [hw]
      simpa using hdec
    have hsel := advance_building_imp db hB o ho hdec2
    rw [hw] at hsel
    have heqw : wid = o.order_id := Option.some_inj.mp hsel
    simp [heqw]

theorem inv_applyOp (db : Db) (op : LaneOp) (h1 : WfLedger db)
    (h2 : buildingCount db.orders ≤ 1) :
    WfLedger (applyOp db op) ∧ buildingCount (applyOp db op).orders ≤ 1 := by
  cases op with
  | place body => exact ⟨wf_placeOrder body db h1, count_placeOrder body db h2⟩
  | advance => exact ⟨wf_advanceLane db h1, count_advanceLane db h1.1 h2⟩

theorem inv_applyOps (ops : List LaneOp) : ∀ db : Db, WfLedger db →
    buildingCount db.orders ≤ 1 →
    WfLedger (applyOps db ops) ∧ buildingCount (applyOps db ops).orders ≤ 1 := by
  induction ops with
  | nil => exact fun db h1 h2 => ⟨h1, h2⟩
  | cons op rest ih =>
    intro db h1 h2
    obtain ⟨g1, g2⟩ := inv_applyOp db op h1 h2
    exact ih _ g1 g2

/-- C2: from any well-formed ledger state (unique order ids, sequence ahead
of them) with at most one `building` order, every sequence of `placeOrder`
and `advanceLane` calls keeps at most one order `building`.  Moreover
`placeOrder` inserts the new order with status `waiting` exactly when some
order is currently `building` (else `building`), and `advanceLane` flips a
waiting order to `building` exactly when it is the waiting order with the
least id — so no waiting order is skipped in favour of a later one. -/
theorem claim_C2 :
    (∀ (ops : List LaneOp) (db : Db), WfLedger db →
      buildingCount db.orders ≤ 1 →
      buildingCount (applyOps db ops).orders ≤ 1) ∧
    (∀ (body : OrderBody) (db : Db),
      (checkSufficientIngredients db.inventory db.menu_ingredients
        body.itemAmount).isLow = false →
      (placeOrder body db).2.orders =
        db.orders ++ [{ order_id := db.nextOrderId
                        employee_id := body.emID
                        order_total := body.total
                        order_status :=
                          if anyBuilding db.orders then "waiting"
                          else "building" }]) ∧
    (∀ (db : Db), (db.orders.map fun o => o.order_id).Nodup →
      ∀ o ∈ db.orders, o.order_status = "waiting" →
        ((advanceOrder (bVal db) (wVal db) o).order_status = "building" ↔
          wVal db = some o.order_id)) ∧
    (∀ (db : Db) (m : Nat), wVal db = some m →
      ∀ x ∈ statusIds db.orders "waiting", m ≤ x) := by
  refine ⟨?_, ?_, ?_, ?_⟩
  · intro ops db h1 h2
    exact (inv_applyOps ops db h1 h2).2
  · intro body db hok
    obtain ⟨bd, hbd⟩ : ∃ bd, checkSufficientIngredients db.inventory
        db.menu_ingredients body.itemAmount = .ok bd := by
      cases hchk : checkSufficientIngredients db.inventory db.menu_ingredients
          body.itemAmount with
      | low s =>
        rw [hchk] at hok
        simp [CheckResult.isLow] at hok
      | ok bd => exact ⟨bd, rfl⟩
    simp [placeOrder, hbd]
  · intro db hN o ho hwait
    constructor
    · intro hst
      rw [advanceOrder] at hst
      by_cases hb : bVal db = some o.order_id
      · have hbd := status_of_minId_statusIds hN ho hb
        rw [hwait] at hbd
        simp at hbd
      · rw [if_neg hb] at hst
        by_cases hw : wVal db = some o.order_id
        · exact hw
        · rw [if_neg hw] at hst
          rw [hwait] at hst
          simp at hst
    · intro hw
      have hb : ¬ bVal db = some o.order_id := by
        intro hb
        have hbd := status_of_minId_statusIds hN ho hb
        rw [hwait] at hbd
        simp at hbd
      rw [advanceOrder, if_neg hb, if_pos hw]
  · intro db m hm x hx
    exact minId?_le hm x hx

/-- Witness for C2: one building order, then an advance and a placement. -/
theorem claim_C2_witness :
    buildingCount (applyOps
      { inventory := [], menu := [], menu_ingredients := [],
        orders := [⟨1, 0, 0, "building"⟩], order_menu := [], nextOrderId := 2 }
      [LaneOp.advance, LaneOp.place ⟨[], 0, 0⟩]).orders ≤ 1 :=
  claim_C2.1 [LaneOp.advance, LaneOp.place ⟨[], 0, 0⟩]
    { inventory := [], menu := [], menu_ingredients := [],
      orders := [⟨1, 0, 0, "building"⟩], order_menu := [], nextOrderId := 2 }
    ⟨by decide, by decide⟩ (by decide)

/-- C3: on a well-formed ledger (unique ids) with at most one `building`
order, one `advanceLane` call maps every order in place in one step: the
`building` order (if any) becomes `complete`, the least-id `waiting` order
(if any) becomes `building`, every other order is untouched; with no
building order nothing new becomes complete, and with no waiting order no
order is `building` afterwards. -/
theorem claim_C3 (db : Db)
    (hN : (db.orders.map fun o => o.order_id).Nodup)
    (hB : buildingCount db.orders ≤ 1) :
    (advanceLane db).orders =
      db.orders.map (advanceOrder (bVal db) (wVal db)) ∧
    (∀ o ∈ db.orders, o.order_status = "building" →
      advanceOrder (bVal db) (wVal db) o =
        { o with order_status := "complete" }) ∧
    (∀ o ∈ db.orders, o.order_status = "waiting" →
      wVal db = some o.order_id →
      advanceOrder (bVal db) (wVal db) o =
        { o with order_status := "building" }) ∧
    (∀ o ∈ db.orders, o.order_status ≠ "building" →
      wVal db ≠ some o.order_id →
      advanceOrder (bVal db) (wVal db) o = o) ∧
    (bVal db = none → ∀ o ∈ db.orders,
      (advanceOrder (bVal db) (wVal db) o).order_status = "complete" →
      o.order_status = "complete") ∧
    (wVal db = none → ∀ o ∈ db.orders,
      (advanceOrder (bVal db) (wVal db) o).order_status ≠ "building") := by
  refine ⟨advanceLane_orders db, ?_, ?_, ?_, ?_, ?_⟩
  · intro o ho hst
    have hb : bVal db = some o.order_id := bVal_eq_of_building hB ho hst
    rw [advanceOrder, if_pos hb]
  · intro o ho hwait hw
    have hb : ¬ bVal db = some o.order_id := by
      intro hb
      have hbd := status_of_minId_statusIds hN ho hb
      rw [hwait] at hbd
      simp at hbd
    rw [advanceOrder, if_neg hb, if_pos hw]
  · intro o ho hnb hnw
    have hb : ¬ bVal db = some o.order_id := by
      intro hb
      exact hnb (status_of_minId_statusIds hN ho hb)
    rw [advanceOrder, if_neg hb, if_neg hnw]
  · intro hbn o ho hst
    have hb2 : ¬ bVal db = some o.order_id := by
      rw [hbn]
      simp
    rw [advanceOrder, if_neg hb2] at hst
    by_cases hw : wVal db = some o.order_id
    · rw [if_pos hw] at hst
      simp at hst
    · rw [if_neg hw] at hst
      exact hst
  · intro hwn o ho
    by_cases hb : bVal db = some o.order_id
    · rw [advanceOrder, if_pos hb]
      simp
    · have hw2 : ¬ wVal db = some o.order_id := by
        rw [hwn]
        simp
      rw [advanceOrder, if_neg hb, if_neg hw2]
      intro hst
      exact hb (bVal_eq_of_building hB ho hst)

/-- Witness for C3: one building and one waiting order. -/
theorem claim_C3_witness :
    (advanceLane exDb3).orders =
      exDb3.orders.map (advanceOrder (bVal exDb3) (wVal exDb3)) ∧
    (∀ o ∈ exDb3.orders, o.order_status = "building" →
      advanceOrder (bVal exDb3) (wVal exDb3) o =
        { o with order_status := "complete" }) ∧
    (∀ o ∈ exDb3.orders, o.order_status = "waiting" →
      wVal exDb3 = some o.order_id →
      advanceOrder (bVal exDb3) (wVal exDb3) o =
        { o with order_status := "building" }) ∧
    (∀ o ∈ exDb3.orders, o.order_status ≠ "building" →
      wVal exDb3 ≠ some o.order_id →
      advanceOrder (bVal exDb3) (wVal exDb3) o = o) ∧
    (bVal exDb3 = none → ∀ o ∈ exDb3.orders,
      (advanceOrder (bVal exDb3) (wVal exDb3) o).order_status = "complete" →
      o.order_status = "complete") ∧
    (wVal exDb3 = none → ∀ o ∈ exDb3.orders,
      (advanceOrder (bVal exDb3) (wVal exDb3) o).order_status ≠ "building") :=
  claim_C3 exDb3 (by decide) (by decide)

theorem optRows_ne_nil {α : Type} (l : List α) : optRows l ≠ [] := by
  cases l with
  | nil => simp [optRows]
  | cons x xs => simp [optRows]

theorem optRows_eq_map_some {α : Type} {l : List α} (h : l ≠ []) :
    optRows l = l.map some := by
  cases l with
  | nil => exact absurd rfl h
  | cons x xs => rfl

theorem flatMap_ne_nil {α β : Type} {l : List α} {f : α → List β}
    (hl : l ≠ []) (hf : ∀ a ∈ l, f a ≠ []) : l.flatMap f ≠ [] := by
  cases l with
  | nil => exact absurd rfl hl
  | cons x xs =>
    rw [List.flatMap_cons]
    intro h
    exact hf x (List.mem_cons_self _ _) (List.append_eq_nil.mp h).1

theorem kitchenLineRows_ne_nil (db : Db) (o : OrderRow) (om : OrderMenuRow) :
    kitchenLineRows db o om ≠ [] := by
  rw [kitchenLineRows]
  refine flatMap_ne_nil (optRows_ne_nil _) ?_
  intro m? _
  refine flatMap_ne_nil (optRows_ne_nil _) ?_
  intro mi? _
  cases mi? with
  | none => simp
  | some mi =>
    rw [Ne, List.map_eq_nil_iff]
    exact optRows_ne_nil _

theorem kitchenRowsForOrder_ne_nil (db : Db) (o : OrderRow) :
    kitchenRowsForOrder db o ≠ [] := by
  rw [kitchenRowsForOrder]
  refine flatMap_ne_nil (optRows_ne_nil _) ?_
  intro om? _
  cases om? with
  | none => simp
  | some om => exact kitchenLineRows_ne_nil db o om

theorem mem_kitchenLineRows_fields {db : Db} {o : OrderRow} {om : OrderMenuRow}
    {r : KVRow} (hr : r ∈ kitchenLineRows db o om) :
    r.order_id = o.order_id ∧ r.order_status = o.order_status ∧
    (∃ m? ∈ optRows (db.menu.filter fun m =>
        m.menu_item_id = om.menu_item_id),
      r.item_name = m?.map fun m => m.menu_item_name) ∧
    r.item_quantity = some om.quantity_ordered := by
  rw [kitchenLineRows, List.mem_flatMap] at hr
  obtain ⟨m?, hm?, hr⟩ := hr
  rw [List.mem_flatMap] at hr
  obtain ⟨mi?, _, hr⟩ := hr
  cases mi? with
  | none =>
    rw [List.mem_singleton] at hr
    rw [hr]
    exact ⟨rfl, rfl, ⟨m?, hm?, rfl⟩, rfl⟩
  | some mi =>
    rw [List.mem_map] at hr
    obtain ⟨i?, _, hr⟩ := hr
    rw [← hr]
    exact ⟨rfl, rfl, ⟨m?, hm?, rfl⟩, rfl⟩

theorem optRows_name_eq_lineName {db : Db} {om : OrderMenuRow}
    (hMenu : (db.menu.map fun m => m.menu_item_id).Nodup) {m? : Option MenuRow}
    (hm? : m? ∈ optRows (db.menu.filter fun m =>
      m.menu_item_id = om.menu_item_id)) :
    (m?.map fun m => m.menu_item_name) = lineName db om := by
  have hlen := length_filter_key_le_one (fun m : MenuRow => m.menu_item_id)
    db.menu hMenu om.menu_item_id
  rw [lineName]
  match hf : db.menu.filter fun m => m.menu_item_id = om.menu_item_id with
  | [] =>
    rw [hf] at hm?
    rw [List.mem_singleton.mp hm?, hf]
    rfl
  | [m] =>
    rw [hf] at hm?
    rw [optRows_eq_map_some (by simp)] at hm?
    simp only [List.map_cons, List.map_nil, List.mem_singleton] at hm?
    rw [hm?, hf]
    rfl
  | m :: m2 :: rest =>
    rw [hf] at hlen
    simp at hlen

theorem mem_kitchenLineRows_const {db : Db} {o : OrderRow} {om : OrderMenuRow}
    (hMenu : (db.menu.map fun m => m.menu_item_id).Nodup)
    {r : KVRow} (hr : r ∈ kitchenLineRows db o om) :
    r.order_id = o.order_id ∧ r.order_status = o.order_status ∧
    r.item_name = lineName db om ∧
    r.item_quantity = some om.quantity_ordered := by
  obtain ⟨h1, h2, ⟨m?, hm?, hname⟩, h4⟩ := mem_kitchenLineRows_fields hr
  exact ⟨h1, h2, hname.trans (optRows_name_eq_lineName hMenu hm?), h4⟩

theorem mem_kitchenRowsForOrder_const {db : Db} {o : OrderRow} {r : KVRow}
    (hr : r ∈ kitchenRowsForOrder db o) :
    r.order_id = o.order_id ∧ r.order_status = o.order_status := by
  rw [kitchenRowsForOrder, List.mem_flatMap] at hr
  obtain ⟨om?, _, hr⟩ := hr
  cases om? with
  | none =>
    rw [List.mem_singleton] at hr
    rw [hr]
    exact ⟨rfl, rfl⟩
  | some om =>
    obtain ⟨h1, h2, _, _⟩ := mem_kitchenLineRows_fields hr
    exact ⟨h1, h2⟩

theorem laneInsert_perm (o : OrderRow) (l : List OrderRow) :
    (laneInsert o l).Perm (o :: l) := by
  induction l with
  | nil => exact List.Perm.refl _
  | cons x xs ih =>
    rw [laneInsert]
    by_cases hc : statusRank o.order_status < statusRank x.order_status ∨
        (statusRank o.order_status = statusRank x.order_status ∧
         o.order_id ≤ x.order_id)
    · rw [if_pos hc]
    · rw [if_neg hc]
      exact (List.Perm.cons x ih).trans (List.Perm.swap o x xs)

theorem laneOrders_perm (l : List OrderRow) :
    (laneOrders l).Perm (l.filter fun o =>
      decide (o.order_status = "building" ∨ o.order_status = "waiting")) := by
  rw [laneOrders]
  generalize l.filter _ = L
  induction L with
  | nil => exact List.Perm.refl _
  | cons x xs ih =>
    rw [List.foldr_cons]
    exact (laneInsert_perm x _).trans (List.Perm.cons x ih)

theorem mem_laneOrders {l : List OrderRow} {o : OrderRow} (ho : o ∈ l)
    (hst : o.order_status = "building" ∨ o.order_status = "waiting") :
    o ∈ laneOrders l :=
  (laneOrders_perm l).mem_iff.mpr
    (List.mem_filter.mpr ⟨ho, by simpa using hst⟩)

theorem laneOrders_nodup_ids {l : List OrderRow}
    (h : (l.map fun o => o.order_id).Nodup) :
    ((laneOrders l).map fun o => o.order_id).Nodup := by
  have hsub : (l.filter fun o =>
      decide (o.order_status = "building" ∨ o.order_status = "waiting")).Sublist
      l := List.filter_sublist l
  have hfil : ((l.filter fun o =>
      decide (o.order_status = "building" ∨
        o.order_status = "waiting")).map fun o => o.order_id).Nodup :=
    (hsub.map fun o => o.order_id).nodup h
  exact (((laneOrders_perm l).map fun o => o.order_id).nodup_iff).mpr hfil

theorem addRow_append_new {acc : List KVOrder} {r : KVRow}
    (h : ∀ e ∈ acc, e.id ≠ r.order_id) :
    addRowToOrders acc r =
      acc ++ [⟨r.order_id, r.order_status,
        addIngToItems [] r.item_name r.item_quantity (ingOf r)⟩] := by
  induction acc with
  | nil => rfl
  | cons e rest ih =>
    rw [addRowToOrders]
    rw [if_neg (h e (List.mem_cons_self _ _))]
    rw [ih fun x hx => h x (List.mem_cons_of_mem _ hx)]
    rfl

theorem addRow_update_last {acc : List KVOrder} {oid : Nat} {st : String}
    {items : List KVItem} {r : KVRow}
    (hacc : ∀ x ∈ acc, x.id ≠ oid) (hr : r.order_id = oid) :
    addRowToOrders (acc ++ [⟨oid, st, items⟩]) r =
      acc ++ [⟨oid, st,
        addIngToItems items r.item_name r.item_quantity (ingOf r)⟩] := by
  induction acc with
  | nil =>
    rw [List.nil_append, addRowToOrders, if_pos hr.symm]
    rfl
  | cons a rest ih =>
    rw [List.cons_append, addRowToOrders]
    rw [if_neg (by rw [hr]; exact hacc a (List.mem_cons_self _ _))]
    rw [ih fun x hx => hacc x (List.mem_cons_of_mem _ hx)]
    rfl

theorem foldl_block (oid : Nat) (st : String) :
    ∀ (rs : List KVRow) (acc : List KVOrder) (items : List KVItem),
    (∀ r ∈ rs, r.order_id = oid ∧ r.order_status = st) →
    (∀ x ∈ acc, x.id ≠ oid) →
    List.foldl addRowToOrders (acc ++ [⟨oid, st, items⟩]) rs =
      acc ++ [⟨oid, st, foldItems items rs⟩] := by
  intro rs
  induction rs with
  | nil => intro acc items _ _; rfl
  | cons r rest ih =>
    intro acc items hconst hacc
    rw [List.foldl_cons,
      addRow_update_last hacc (hconst r (List.mem_cons_self _ _)).1]
    exact ih acc _ (fun x hx => hconst x (List.mem_cons_of_mem _ hx)) hacc

theorem foldl_block_start {oid : Nat} {st : String} {rs : List KVRow}
    {acc : List KVOrder} (hne : rs ≠ [])
    (hconst : ∀ r ∈ rs, r.order_id = oid ∧ r.order_status = st)
    (hacc : ∀ x ∈ acc, x.id ≠ oid) :
    List.foldl addRowToOrders acc rs =
      acc ++ [⟨oid, st, foldItems [] rs⟩] := by
  cases rs with
  | nil => exact absurd rfl hne
  | cons r rest =>
    obtain ⟨hrid, hrst⟩ := hconst r (List.mem_cons_self _ _)
    rw [List.foldl_cons, addRow_append_new]
    · rw [hrid, hrst]
      exact foldl_block oid st rest acc _
        (fun x hx => hconst x (List.mem_cons_of_mem _ hx)) hacc
    · intro e he
      rw [hrid]
      exact hacc e he

theorem kitchenFold (db : Db) :
    ∀ (os : List OrderRow) (acc : List KVOrder),
    ((os.map fun o => o.order_id).Nodup) →
    (∀ o2 ∈ os, ∀ x ∈ acc, x.id ≠ o2.order_id) →
    List.foldl addRowToOrders acc (os.flatMap (kitchenRowsForOrder db)) =
      acc ++ os.map fun o2 =>
        ⟨o2.order_id, o2.order_status,
          foldItems [] (kitchenRowsForOrder db o2)⟩ := by
  intro os
  induction os with
  | nil =>
    intro acc _ _
    simp
  | cons o2 rest ih =>
    intro acc hN hacc
    rw [List.map_cons, List.nodup_cons] at hN
    rw [List.flatMap_cons, List.foldl_append]
    rw [foldl_block_start (kitchenRowsForOrder_ne_nil db o2)
      (fun r hr => mem_kitchenRowsForOrder_const hr)
      (hacc o2 (List.mem_cons_self _ _))]
    have hacc2 : ∀ o3 ∈ rest, ∀ x ∈ (acc ++ [⟨o2.order_id, o2.order_status,
        foldItems [] (kitchenRowsForOrder db o2)⟩] : List KVOrder),
        x.id ≠ o3.order_id := by
      intro o3 ho3 x hx
      rw [List.mem_append] at hx
      rcases hx with hx | hx
      · exact hacc o3 (List.mem_cons_of_mem _ ho3) x hx
      · rw [List.mem_singleton] at hx
        rw [hx]
        intro heq
        have heq2 : o2.order_id = o3.order_id := heq
        refine hN.1 ?_
        rw [heq2]
        exact List.mem_map_of_mem (fun o => o.order_id) ho3
    have hrest := ih (acc ++ [⟨o2.order_id, o2.order_status,
      foldItems [] (kitchenRowsForOrder db o2)⟩] : List KVOrder) hN.2 hacc2
    rw [hrest, List.append_assoc]
    rfl

theorem kitchenView_eq (db : Db)
    (hOid : (db.orders.map fun o => o.order_id).Nodup) :
    kitchenView db = (laneOrders db.orders).map fun o =>
      ⟨o.order_id, o.order_status, foldItems [] (kitchenRowsForOrder db o)⟩ := by
  rw [kitchenView, kitchenRows]
  rw [kitchenFold db (laneOrders db.orders) [] (laneOrders_nodup_ids hOid)
    (by intro o2 _ x hx; cases hx)]
  rw [List.nil_append]

theorem foldItems_cons (items : List KVItem) (r : KVRow) (rs : List KVRow) :
    foldItems items (r :: rs) =
      foldItems (addIngToItems items r.item_name r.item_quantity (ingOf r)) rs :=
  rfl

theorem foldItems_append (items : List KVItem) (a b : List KVRow) :
    foldItems items (a ++ b) = foldItems (foldItems items a) b := by
  rw [foldItems, foldItems, foldItems, List.foldl_append]

theorem addIng_append_new {items : List KVItem} {nm : Option String}
    {q : Option Nat} {ing : KVIngredient}
    (h : ∀ it ∈ items, it.name ≠ nm) :
    addIngToItems items nm q ing = items ++ [⟨nm, q, [ing]⟩] := by
  induction items with
  | nil => rfl
  | cons it rest ih =>
    rw [addIngToItems, if_neg (h it (List.mem_cons_self _ _)),
      ih fun x hx => h x (List.mem_cons_of_mem _ hx)]
    rfl

theorem addIng_update_last {items : List KVItem} {nm : Option String}
    {q0 q : Option Nat} {ings : List KVIngredient} {ing : KVIngredient}
    (h : ∀ x ∈ items, x.name ≠ nm) :
    addIngToItems (items ++ [⟨nm, q0, ings⟩]) nm q ing =
      items ++ [⟨nm, q0, ings ++ [ing]⟩] := by
  induction items with
  | nil =>
    rw [List.nil_append, addIngToItems, if_pos rfl]
    rfl
  | cons a rest ih =>
    rw [List.cons_append, addIngToItems,
      if_neg (h a (List.mem_cons_self _ _)),
      ih fun x hx => h x (List.mem_cons_of_mem _ hx)]
    rfl

theorem foldItems_block (nm : Option String) (q : Option Nat) :
    ∀ (rs : List KVRow) (items : List KVItem) (q0 : Option Nat)
      (ings : List KVIngredient),
    (∀ r ∈ rs, r.item_name = nm ∧ r.item_quantity = q) →
    (∀ x ∈ items, x.name ≠ nm) →
    foldItems (items ++ [⟨nm, q0, ings⟩]) rs =
      items ++ [⟨nm, q0, ings ++ rs.map ingOf⟩] := by
  intro rs
  induction rs with
  | nil =>
    intro items q0 ings _ _
    simp [foldItems]
  | cons r rest ih =>
    intro items q0 ings hconst hno
    rw [foldItems_cons, (hconst r (List.mem_cons_self _ _)).1,
      addIng_update_last hno,
      ih items q0 (ings ++ [ingOf r])
        (fun x hx => hconst x (List.mem_cons_of_mem _ hx)) hno,
      List.append_assoc]
    rfl

theorem foldItems_block_start {nm : Option String} {q : Option Nat}
    {rs : List KVRow} {items : List KVItem} (hne : rs ≠ [])
    (hconst : ∀ r ∈ rs, r.item_name = nm ∧ r.item_quantity = q)
    (hno : ∀ x ∈ items, x.name ≠ nm) :
    foldItems items rs = items ++ [⟨nm, q, rs.map ingOf⟩] := by
  cases rs with
  | nil => exact absurd rfl hne
  | cons r rest =>
    obtain ⟨h1, h2⟩ := hconst r (List.mem_cons_self _ _)
    rw [foldItems_cons, h1, h2, addIng_append_new hno,
      foldItems_block nm q rest items q [ingOf r]
        (fun x hx => hconst x (List.mem_cons_of_mem _ hx)) hno]
    rfl

theorem itemsFold (db : Db) (o : OrderRow)
    (hMenu : (db.menu.map fun m => m.menu_item_id).Nodup) :
    ∀ (oms : List OrderMenuRow) (items : List KVItem),
    ((oms.map (lineName db)).Nodup) →
    (∀ it ∈ items, ∀ om ∈ oms, it.name ≠ lineName db om) →
    foldItems items (oms.flatMap (kitchenLineRows db o)) =
      items ++ oms.map fun om =>
        ⟨lineName db om, some om.quantity_ordered,
          (kitchenLineRows db o om).map ingOf⟩ := by
  intro oms
  induction oms with
  | nil =>
    intro items _ _
    simp [foldItems]
  | cons om rest ih =>
    intro items hN hno
    rw [List.map_cons, List.nodup_cons] at hN
    rw [List.flatMap_cons, foldItems_append]
    rw [foldItems_block_start (kitchenLineRows_ne_nil db o om)
      (fun r hr => ⟨(mem_kitchenLineRows_const hMenu hr).2.2.1,
        (mem_kitchenLineRows_const hMenu hr).2.2.2⟩)
      (fun x hx => hno x hx om (List.mem_cons_self _ _))]
    have hno2 : ∀ it ∈ items ++
        [(⟨lineName db om, some om.quantity_ordered,
          (kitchenLineRows db o om).map ingOf⟩ : KVItem)],
        ∀ om2 ∈ rest, it.name ≠ lineName db om2 := by
      intro it hit om2 hom2
      rw [List.mem_append] at hit
      rcases hit with hit | hit
      · exact hno it hit om2 (List.mem_cons_of_mem _ hom2)
      · rw [List.mem_singleton] at hit
        rw [hit]
        intro heq
        have heq2 : lineName db om = lineName db om2 := heq
        refine hN.1 ?_
        rw [heq2]
        exact List.mem_map_of_mem (lineName db) hom2
    have hrest := ih (items ++ [⟨lineName db om, some om.quantity_ordered,
      (kitchenLineRows db o om).map ingOf⟩] : List KVItem) hN.2 hno2
    rw [hrest, List.append_assoc]
    rfl

theorem orderGroup_items (db : Db) (o : OrderRow)
    (hMenu : (db.menu.map fun m => m.menu_item_id).Nodup)
    (hLines : ((db.order_menu.filter fun om =>
      om.order_id = o.order_id).map (lineName db)).Nodup)
    (homs : (db.order_menu.filter fun om => om.order_id = o.order_id) ≠ []) :
    foldItems [] (kitchenRowsForOrder db o) =
      (db.order_menu.filter fun om => om.order_id = o.order_id).map fun om =>
        ⟨lineName db om, some om.quantity_ordered,
          (kitchenLineRows db o om).map ingOf⟩ := by
  rw [kitchenRowsForOrder, optRows_eq_map_some homs, List.flatMap_map]
  rw [itemsFold db o hMenu
    (db.order_menu.filter fun om => om.order_id = o.order_id) [] hLines
    (fun it hit => absurd hit (List.not_mem_nil it))]
  rw [List.nil_append]

/-- C5 (amended): for every persisted order with status `building` or
`waiting`, the kitchen read view returns an entry for that order with its
line items, and for each line item every recipe ingredient with quantity
equal to the RECIPE quantity alone (`menu_ingredients.quantity_needed`) —
NOT multiplied by the quantity ordered, which the claim asserted and the
counterexample refutes.  Stated under primary-key integrity (unique order
ids and menu ids) and distinct per-order line names (the JS grouping merges
same-named items of one order). -/
theorem claim_C5 (db : Db) (o : OrderRow)
    (hOid : (db.orders.map fun x => x.order_id).Nodup)
    (hMenu : (db.menu.map fun m => m.menu_item_id).Nodup)
    (hLines : ((db.order_menu.filter fun om =>
      om.order_id = o.order_id).map (lineName db)).Nodup)
    (ho : o ∈ db.orders)
    (hst : o.order_status = "building" ∨ o.order_status = "waiting") :
    ∃ e ∈ kitchenView db, e.id = o.order_id ∧ e.status = o.order_status ∧
      ∀ om ∈ db.order_menu, om.order_id = o.order_id →
        ∃ it ∈ e.item,
          (∀ m ∈ db.menu, m.menu_item_id = om.menu_item_id →
            it.name = some m.menu_item_name) ∧
          it.amount = some om.quantity_ordered ∧
          ∀ mi ∈ db.menu_ingredients, mi.menu_item_id = om.menu_item_id →
            ∀ i ∈ db.inventory, i.inventory_id = mi.inventory_id →
              ({ ingredientName := some i.item_name,
                 amount := some mi.quantity_needed } : KVIngredient) ∈
                it.ingredient := by
  refine ⟨⟨o.order_id, o.order_status,
    foldItems [] (kitchenRowsForOrder db o)⟩, ?_, rfl, rfl, ?_⟩
  · rw [kitchenView_eq db hOid]
    exact List.mem_map_of_mem _ (mem_laneOrders ho hst)
  · intro om hom homid
    have hmem_oms : om ∈ db.order_menu.filter fun om2 =>
        om2.order_id = o.order_id :=
      List.mem_filter.mpr ⟨hom, by simpa using homid⟩
    have homs : (db.order_menu.filter fun om2 =>
        om2.order_id = o.order_id) ≠ [] := by
      intro h
      rw [h] at hmem_oms
      cases hmem_oms
    have hgroup := orderGroup_items db o hMenu hLines homs
    simp only [KVOrder.item]
    rw [hgroup]
    refine ⟨⟨lineName db om, some om.quantity_ordered,
      (kitchenLineRows db o om).map ingOf⟩,
      List.mem_map_of_mem _ hmem_oms, ?_, rfl, ?_⟩
    · intro m hm hmid
      show lineName db om = some m.menu_item_name
      rw [lineName]
      have hfil : db.menu.filter (fun a =>
          decide (a.menu_item_id = om.menu_item_id)) = [m] := by
        rw [← hmid]
        exact filter_key_eq_single (fun a : MenuRow => a.menu_item_id) hMenu hm
      rw [hfil]
    · intro mi hmi hmiid i hi hiid
      show _ ∈ (kitchenLineRows db o om).map ingOf
      obtain ⟨m?0, hm?0⟩ := List.exists_mem_of_ne_nil _
        (optRows_ne_nil (db.menu.filter fun m =>
          m.menu_item_id = om.menu_item_id))
      have hmi_mem : mi ∈ db.menu_ingredients.filter fun x =>
          x.menu_item_id = om.menu_item_id :=
        List.mem_filter.mpr ⟨hmi, by simpa using hmiid⟩
      have hmis_ne : (db.menu_ingredients.filter fun x =>
          x.menu_item_id = om.menu_item_id) ≠ [] := by
        intro h
        rw [h] at hmi_mem
        cases hmi_mem
      have hi_mem : i ∈ db.inventory.filter fun x =>
          x.inventory_id = mi.inventory_id :=
        List.mem_filter.mpr ⟨hi, by simpa using hiid⟩
      have hinvf_ne : (db.inventory.filter fun x =>
          x.inventory_id = mi.inventory_id) ≠ [] := by
        intro h
        rw [h] at hi_mem
        cases hi_mem
      refine List.mem_map.mpr ⟨⟨o.order_id, o.order_status,
        m?0.map fun m => m.menu_item_name, some om.quantity_ordered,
        some i.item_name, some mi.quantity_needed⟩, ?_, rfl⟩
      rw [kitchenLineRows, List.mem_flatMap]
      refine ⟨m?0, hm?0, ?_⟩
      rw [List.mem_flatMap]
      refine ⟨some mi, ?_, ?_⟩
      · rw [optRows_eq_map_some hmis_ne]
        exact List.mem_map_of_mem some hmi_mem
      · show _ ∈ (optRows (db.inventory.filter fun x =>
          x.inventory_id = mi.inventory_id)).map _
        rw [optRows_eq_map_some hinvf_ne, List.map_map]
        exact List.mem_map.mpr ⟨i, hi_mem, rfl⟩

/-- Witness for C5: the order for two Bowls appears on the kitchen view
with its line item and the Rice ingredient. -/
theorem claim_C5_witness :
    ∃ e ∈ kitchenView exDb5, e.id = (⟨1, 0, 0, "building"⟩ : OrderRow).order_id ∧
      e.status = (⟨1, 0, 0, "building"⟩ : OrderRow).order_status ∧
      ∀ om ∈ exDb5.order_menu,
        om.order_id = (⟨1, 0, 0, "building"⟩ : OrderRow).order_id →
        ∃ it ∈ e.item,
          (∀ m ∈ exDb5.menu, m.menu_item_id = om.menu_item_id →
            it.name = some m.menu_item_name) ∧
          it.amount = some om.quantity_ordered ∧
          ∀ mi ∈ exDb5.menu_ingredients, mi.menu_item_id = om.menu_item_id →
            ∀ i ∈ exDb5.inventory, i.inventory_id = mi.inventory_id →
              ({ ingredientName := some i.item_name,
                 amount := some mi.quantity_needed } : KVIngredient) ∈
                it.ingredient :=
  claim_C5 exDb5 ⟨1, 0, 0, "building"⟩ (by decide) (by decide) (by decide)
    (by decide) (by decide)

/-- Counterexample to C5 as stated: two Bowls ordered, recipe needs 3 Rice
per Bowl, so the claim demands an ingredient quantity of 3 × 2 = 6 on the
kitchen view; the query selects the bare recipe quantity and the view shows
3. -/
theorem claim_C5_counterexample :
    kitchenView exDb5 =
      [{ id := 1, status := "building",
         item := [{ name := some "Bowl", amount := some 2,
                    ingredient := [{ ingredientName := some "Rice",
                                     amount := some 3 }] }] }] ∧
    (3 : Nat) ≠ 3 * 2 :=
  ⟨by decide, by decide⟩
